import Mathlib

/-!
Shallow embedding of the curseforgepy download/install pipeline
(`fileops.py`, `utils.py`, `download.py`, `paths.py`, `installer.py`)
together with proofs about the claims of the specification.

Modelling conventions:
* file contents are lists of naturals (`Bytes`); paths are lists of components
  (`FPath`), mirroring `pathlib.Path` parts;
* the filesystem is a map from paths to optional contents plus a directory
  predicate; all state passing is explicit;
* the cryptographic hash functions (sha1/sha256/md5) are abstract parameters
  (`HashFns`): the code only ever compares their hex-digest outputs;
* `requests` responses are records carrying status, headers and body chunks;
  a server is a function from request data to a response or a raised
  transport exception (`Except String Resp`);
* Python falsiness of `None`, `0` and `""` is modelled by the `pyOr*` helpers;
* wall-clock values (timestamps, elapsed time) and random jitter are abstract
  parameters; `time.sleep` calls are recorded as data instead of waiting.
-/

/-- File contents: a list of byte values. -/
abbrev Bytes := List Nat

/-- A filesystem path, as its list of components (`pathlib.Path.parts`). -/
abbrev FPath := List String

/-- Python `str.lower()` (ASCII case folding, which is all the library compares). -/
def pyLower (s : String) : String := ⟨s.data.map Char.toLower⟩

/-- Python `a or b` for optional strings, where `None` and `""` are falsy. -/
def pyOrOptStr (a b : Option String) : Option String :=
  match a with
  | some s => if s = "" then b else some s
  | none => b

/-- Python `a or b` where `a` is an optional string and `b` a string default. -/
def pyOrS (a : Option String) (b : String) : String :=
  match a with
  | some s => if s = "" then b else s
  | none => b

/-- Python `a or b` for optional integers, where `None` and `0` are falsy. -/
def pyOrI (a b : Option Int) : Option Int :=
  match a with
  | some v => if v = 0 then b else some v
  | none => b

/-- Python `a or b` for an optional natural with a natural default (`0` falsy). -/
def pyOrNat (a : Option Nat) (b : Nat) : Nat :=
  match a with
  | some n => if n = 0 then b else n
  | none => b

/-- Python truthiness of an optional string (`None` and `""` are falsy). -/
def pyTruthyS (a : Option String) : Bool :=
  match a with
  | some s => s ≠ ""
  | none => false

/-- Python `needle in hay` on strings. -/
def strContains (hay needle : String) : Bool := decide (needle.data <:+: hay.data)

/-- Python `x and needle in x` used on optional error strings. -/
def optContains (e : Option String) (needle : String) : Bool :=
  match e with
  | some s => strContains s needle
  | none => false

/-- Python `str.strip()`. -/
def pyStrip (s : String) : String :=
  ⟨((s.data.dropWhile Char.isWhitespace).reverse.dropWhile Char.isWhitespace).reverse⟩

/-- Numeric value of a string of decimal digits (`int(s)` on an `isdigit` string). -/
def digitsToNat (l : List Char) : Nat :=
  l.foldl (fun acc c => acc * 10 + (c.toNat - 48)) 0

/-- Python `str.isdigit()`: non-empty and all digit characters. -/
def pyIsDigit (s : String) : Bool := !s.data.isEmpty && s.data.all Char.isDigit

/-- Python `str()` of a float number of seconds as it appears in f-strings.
Exact for integral values (`2.0`); non-integral values are rendered as a
fraction, which no library code path inspects beyond substring tests for
`"429"`/`"416"`. -/
def floatStr (q : ℚ) : String :=
  if q.den = 1 then toString q.num ++ ".0" else toString q.num ++ "/" ++ toString q.den

/-- Basename of a URL: `url.split("?")[0].rstrip("/").split("/")[-1]`
(`installer.build_plan_from_manifest` and `download.download_url_to_folder`). -/
def urlBasename (u : String) : String :=
  let a := u.data.takeWhile (· ≠ '?')
  let b := (a.reverse.dropWhile (· = '/')).reverse
  ⟨(b.reverse.takeWhile (· ≠ '/')).reverse⟩

/-- `os.path.basename`: the part after the last `/`. -/
def osBasename (s : String) : String :=
  ⟨(s.data.reverse.takeWhile (· ≠ '/')).reverse⟩

/-- Association-list lookup, modelling Python `dict.get` (keys are unique in an
actual `dict`; lists here keep insertion order like `dict.items()`). -/
def alGet (l : List (String × String)) (k : String) : Option String :=
  (l.find? (fun e => e.1 == k)).map (·.2)

/-- Python `d[k] = v`: overwrite in place if the key exists, else append. -/
def alSet (l : List (String × String)) (k v : String) : List (String × String) :=
  if (l.find? (fun e => e.1 == k)).isSome then
    l.map (fun e => if e.1 == k then (k, v) else e)
  else l ++ [(k, v)]

/-- Exceptions the modelled code raises and distinguishes. -/
inductive PyErr where
  | valueError (msg : String)
  | downloadError (msg : String)
  | fileNotFound (msg : String)
deriving DecidableEq, Repr

instance {ε α : Type} [DecidableEq ε] [DecidableEq α] : DecidableEq (Except ε α) := fun x y =>
  match x, y with
  | .ok a, .ok b => if h : a = b then isTrue (by rw [h]) else isFalse (by simp [h])
  | .error a, .error b => if h : a = b then isTrue (by rw [h]) else isFalse (by simp [h])
  | .ok _, .error _ => isFalse (by simp)
  | .error _, .ok _ => isFalse (by simp)

/-- `min` on rationals by an explicit comparison (kernel-reducible). -/
def pyMin (a b : ℚ) : ℚ := if a ≤ b then a else b

/-- `max` on rationals by an explicit comparison (kernel-reducible). -/
def pyMax (a b : ℚ) : ℚ := if a ≤ b then b else a

/-- Natural power on rationals by explicit recursion (kernel-reducible). -/
def ratPow (q : ℚ) : ℕ → ℚ
  | 0 => 1
  | n + 1 => ratPow q n * q

/-- The filesystem: contents of files and which paths are directories. -/
structure FS where
  files : FPath → Option Bytes
  dirs : FPath → Bool

namespace FS

def lookupFile (fs : FS) (p : FPath) : Option Bytes := fs.files p

def fileExists (fs : FS) (p : FPath) : Bool := (fs.files p).isSome

def dirExists (fs : FS) (p : FPath) : Bool := fs.dirs p

/-- Write (create or truncate-overwrite) a file. -/
def setFile (fs : FS) (p : FPath) (c : Bytes) : FS :=
  { fs with files := fun q => if q = p then some c else fs.files q }

/-- `Path.unlink` / removing one file. -/
def removeFile (fs : FS) (p : FPath) : FS :=
  { fs with files := fun q => if q = p then none else fs.files q }

/-- `mkdir(parents=True, exist_ok=True)` for one directory (parent components
are tracked through the explicit directory lists the code creates). -/
def addDir (fs : FS) (p : FPath) : FS :=
  { fs with dirs := fun q => if q = p then true else fs.dirs q }

/-- `shutil.rmtree`: remove a directory and everything below it. -/
def removeTree (fs : FS) (root : FPath) : FS :=
  { files := fun q => if root <+: q then none else fs.files q,
    dirs := fun q => if root <+: q then false else fs.dirs q }

/-- `shutil.copytree src dst` (dst fresh): below `dst` the tree mirrors `src`,
everything else is unchanged. -/
def copyTree (fs : FS) (src dst : FPath) : FS :=
  { files := fun q => if dst <+: q then fs.files (src ++ q.drop dst.length) else fs.files q,
    dirs := fun q => if dst <+: q then fs.dirs (src ++ q.drop dst.length) else fs.dirs q }

/-- `shutil.move src dst` for a directory, with nothing at `dst` beforehand:
the subtree at `src` reappears at `dst` and vanishes at `src`. -/
def moveTree (fs : FS) (src dst : FPath) : FS :=
  { files := fun q =>
      if dst <+: q then fs.files (src ++ q.drop dst.length)
      else if src <+: q then none else fs.files q,
    dirs := fun q =>
      if dst <+: q then fs.dirs (src ++ q.drop dst.length)
      else if src <+: q then false else fs.dirs q }

end FS

/-- `fileops.safe_remove`: `rmtree` for directories, `unlink` for files,
"already gone" is success (retries on transient OS errors are not modelled:
the model's removals succeed). -/
def safe_remove (fs : FS) (p : FPath) : FS :=
  if fs.dirExists p then fs.removeTree p else fs.removeFile p

/-- Abstract cryptographic hash functions; the code only compares their
lowercase hex-digest outputs. -/
structure HashFns where
  sha1 : Bytes → String
  sha256 : Bytes → String
  md5 : Bytes → String

/-- The digests `fileops.is_same_file` computes, in computation order. -/
def computeHashes (H : HashFns) (c : Bytes) : List (String × String) :=
  [("sha1", H.sha1 c), ("sha256", H.sha256 c), ("md5", H.md5 c)]

/-- The dict comprehension
`{k.lower(): v.lower() for k, v in expected_hashes.items() if v}`. -/
def normExpected (expected : List (String × String)) : List (String × String) :=
  expected.foldl
    (fun acc e => if e.2 = "" then acc else alSet acc (pyLower e.1) (pyLower e.2)) []

/-- `fileops.temp_part_path`: for every destination name (with or without a
suffix) `Path.with_suffix` yields the original name with `".part"` appended. -/
def temp_part_path (dest : FPath) : FPath :=
  dest.dropLast ++ [dest.getLastD "" ++ ".part"]

/-- `fileops.is_same_file`. Returns `(matches, computed_digests)`, raising
`FileNotFoundError` when the path does not exist. The per-digest
`try/except` fallbacks to `""` only fire when hashing raises, which the pure
hash model cannot. -/
def is_same_file (H : HashFns) (fs : FS) (path : FPath)
    (expected : List (String × String)) : Except PyErr (Bool × List (String × String)) :=
  if fs.fileExists path then
    let c := (fs.lookupFile path).getD []
    let computed := computeHashes H c
    if expected.isEmpty then .ok (false, computed)
    else
      let ne := normExpected expected
      let m := ne.any (fun e =>
        match alGet computed e.1 with
        | some actual => actual ≠ "" && pyLower actual == pyLower e.2
        | none => false)
      .ok (m, computed)
  else .error (.fileNotFound "File not found")

/-- Outcomes of the fallible OS operations inside `fileops.atomic_write`,
together with the fresh temp-file name `tempfile.mkstemp` picks. -/
structure AWEnv where
  tmpName : FPath
  writeOk : Bool
  replaceOk : Bool
  unlinkOk : Bool
  moveOk : Bool

/-- Result and final filesystem of one `atomic_write` call. -/
structure AWOut where
  result : Except PyErr FPath
  fs : FS

/-- `fileops.atomic_write` (binary mode, the only mode the library uses).
Validates that exactly one of `data`/`chunks` is given, writes the payload to
a temp file in the destination directory, then `os.replace`s it onto the
destination, falling back to unlink-plus-`shutil.move`; on failure the temp
file is removed and an error is raised. -/
def atomic_write (env : AWEnv) (fs : FS) (dest_path : FPath)
    (data chunks : Option Bytes) : AWOut :=
  let fs := fs.addDir dest_path.dropLast
  if (data.isNone && chunks.isNone) || (data.isSome && chunks.isSome) then
    ⟨.error (.valueError "Provide exactly one of data or chunks."), fs⟩
  else
    let payload := data.getD (chunks.getD [])
    let fs := fs.setFile env.tmpName []
    if !env.writeOk then
      ⟨.error (.downloadError "atomic_write failed"), fs.removeFile env.tmpName⟩
    else
      let fs := fs.setFile env.tmpName payload
      if env.replaceOk then
        ⟨.ok dest_path, (fs.removeFile env.tmpName).setFile dest_path payload⟩
      else
        if fs.fileExists dest_path then
          if env.unlinkOk then
            let fs := fs.removeFile dest_path
            if env.moveOk then
              ⟨.ok dest_path, (fs.removeFile env.tmpName).setFile dest_path payload⟩
            else
              ⟨.error (.downloadError "Failed to move temp file to destination"),
                fs.removeFile env.tmpName⟩
          else
            ⟨.error (.downloadError "Failed to move temp file to destination"),
              fs.removeFile env.tmpName⟩
        else
          if env.moveOk then
            ⟨.ok dest_path, (fs.removeFile env.tmpName).setFile dest_path payload⟩
          else
            ⟨.error (.downloadError "Failed to move temp file to destination"),
              fs.removeFile env.tmpName⟩

/-- Result and final filesystem of one `write_stream_to_tempfile` call. -/
structure WSOut where
  result : Except PyErr FPath
  fs : FS

/-- `fileops.write_stream_to_tempfile`. The response body is modelled by its
list of chunks. After streaming the body into the `.part` file the source
calls `atomic_write(dest, chunks=None, data=None)` (its own comment calls it
a placeholder); that call's argument validation raises, so the promotion code
after it is unreachable — it is translated nonetheless. -/
def write_stream_to_tempfile (env : AWEnv) (fs : FS) (chunks : List Bytes)
    (dest : FPath) (resume : Bool) : WSOut :=
  let fs := fs.addDir dest.dropLast
  let part := temp_part_path dest
  let append := resume && fs.fileExists part
  let content := (if append then (fs.lookupFile part).getD [] else []) ++ chunks.flatten
  let fs := fs.setFile part content
  let aw := atomic_write env fs dest none none
  match aw.result with
  | .error (.downloadError m) => ⟨.error (.downloadError m), aw.fs⟩
  | .error (.valueError m) =>
      ⟨.error (.downloadError ("Failed writing stream to temp file: " ++ m)), aw.fs⟩
  | .error (.fileNotFound m) =>
      ⟨.error (.downloadError ("Failed writing stream to temp file: " ++ m)), aw.fs⟩
  | .ok _ =>
      let fs2 := (aw.fs.removeFile part).setFile dest content
      ⟨.ok dest, fs2⟩

/-- `utils.parse_retry_after` on a header/string value (the numeric-instance
branch is unreachable: all call sites pass strings or `None`).
`email.utils.parsedate_to_datetime` composed with `.timestamp()` is the
abstract partial function `dateParse`; `now` is `time.time()`. -/
def parse_retry_after (dateParse : String → Option ℚ) (now : ℚ)
    (value : Option String) : ℚ :=
  match value with
  | none => 0
  | some v =>
    let s := pyStrip v
    if pyIsDigit s then (digitsToNat s.data : ℚ)
    else
      match dateParse v with
      | some ts => if ts - now > 0 then ts - now else 0
      | none => 0

/-- `utils.exponential_backoff`. `u` abstracts the `random.random()` sample in
`[0, 1]` behind the ±10% jitter and `rnd` abstracts `round(·, 4)`; callers
always pass `attempt ≥ 1` (the source raises `ValueError` otherwise). -/
def exponential_backoff (u : ℚ) (rnd : ℚ → ℚ) (attempt : ℕ) (base factor max_interval : ℚ) : ℚ :=
  let raw := base * ratPow factor (attempt - 1)
  let delay := pyMin raw max_interval
  let jitter_amount := delay * (1 / 10)
  let jitter := (u * 2 - 1) * jitter_amount
  rnd (pyMax 0 (delay + jitter))

/-- An HTTP response as the download code observes it: status line, the two
headers it reads, the streamed body chunks, and the filename that
`get_filename_from_response` would parse out of `Content-Disposition`
(the RFC 6266 parsing itself is abstracted into this field). -/
structure Resp where
  status : ℕ
  reason : String
  retryAfter : Option String
  contentLength : Option ℕ
  chunks : List Bytes
  cdFilename : Option String
deriving DecidableEq

/-- `fileops.get_filename_from_response`: Content-Disposition filename when
present (and truthy), else the basename of the fallback URL, else `None`. -/
def get_filename_from_response (resp : Resp) (fallback_url : String) : Option String :=
  match resp.cdFilename with
  | some f => if f ≠ "" then some f else
      (let b := urlBasename fallback_url; if b ≠ "" then some b else none)
  | none =>
      let b := urlBasename fallback_url
      if b ≠ "" then some b else none

/-- `download.DownloadResult`. -/
structure DLResult where
  url : String
  path : Option FPath
  success : Bool
  attempts : ℕ
  bytes : ℕ
  error : Option String
deriving DecidableEq

/-- Result and filesystem of one `DownloadManager._attempt_download`. -/
structure AttemptOut where
  res : DLResult
  fs : FS

/-- The Range offset `_attempt_download` sends: the size of the existing
`.part` file when resuming, else no Range header. -/
def attempt_range (fs : FS) (destPath0 : FPath) (resume : Bool) : Option ℕ :=
  let fs := fs.addDir destPath0.dropLast
  let part := temp_part_path destPath0
  if resume && fs.fileExists part then some (((fs.lookupFile part).getD []).length) else none

/-- `DownloadManager._attempt_download`. `server` maps the Range offset the
request carries (`none` when no Range header is sent) to the response or to a
raised transport exception. The promotion `os.replace(part, dest)` is modelled
as succeeding (its cross-filesystem fallback is environment-specific). -/
def attempt_download (H : HashFns) (dateParse : String → Option ℚ) (now : ℚ)
    (server : Option ℕ → Except String Resp) (fs : FS) (url : String)
    (destPath0 : FPath) (expected : List (String × String)) (resume : Bool) : AttemptOut :=
  let fs := fs.addDir destPath0.dropLast
  let part := temp_part_path destPath0
  let range := attempt_range fs destPath0 resume
  let existing := range.getD 0
  match server range with
  | .error e => ⟨⟨url, none, false, 1, 0, some e⟩, fs⟩
  | .ok resp =>
    if resp.status = 404 || resp.status = 410 then
      ⟨⟨url, none, false, 1, 0, some ("HTTP " ++ toString resp.status ++ ": " ++ resp.reason)⟩, fs⟩
    else if resp.status = 416 then
      ⟨⟨url, none, false, 1, 0,
        some "416 Range Not Satisfiable: removed local .part; retrying fresh recommended"⟩,
        safe_remove fs part⟩
    else if resp.status = 429 then
      let ra := parse_retry_after dateParse now resp.retryAfter
      ⟨⟨url, none, false, 1, 0, some ("429 Rate limited; retry-after=" ++ floatStr ra)⟩, fs⟩
    else if resp.status ≥ 400 then
      ⟨⟨url, none, false, 1, 0, some ("HTTP " ++ toString resp.status ++ ": " ++ resp.reason)⟩, fs⟩
    else
      -- dest filename is re-derived only when the tentative dest has no name
      let destPath :=
        if (get_filename_from_response resp url).isSome && destPath0.getLastD "" = "" then
          destPath0.dropLast ++ [(get_filename_from_response resp url).getD ""]
        else destPath0
      let append := existing ≠ 0
      let body := resp.chunks.flatten
      let content := (if append then (fs.lookupFile part).getD [] else []) ++ body
      let written := existing + body.length
      let fs := fs.setFile part content
      let fs := (fs.removeFile part).setFile destPath content
      if expected.isEmpty then
        ⟨⟨url, some destPath, true, 1, written, none⟩, fs⟩
      else
        match is_same_file H fs destPath expected with
        | .ok (true, _) => ⟨⟨url, some destPath, true, 1, written, none⟩, fs⟩
        | .ok (false, _) =>
            ⟨⟨url, some destPath, false, 1, written, some "Checksum mismatch after download"⟩,
              safe_remove fs destPath⟩
        | .error _ =>
            ⟨⟨url, some destPath, false, 1, written, some "Checksum verification error"⟩, fs⟩

/-- Final state of `DownloadManager.download_url_to_folder`: the returned
result, the filesystem, and the `time.sleep` durations in call order. -/
structure DUTFOut where
  result : DLResult
  fs : FS
  sleeps : List ℚ

/-- The `while attempts < max_attempts` retry loop of
`download_url_to_folder`, by recursion on the remaining attempt budget.
`backoff` is `utils.exponential_backoff (·, base=self.backoff_base)` with its
jitter sample abstracted; `server n` serves the `n`-th attempt.
When the budget is exhausted with no attempt made (`max_attempts ≤ 0`) the
source would hit an unbound local (`result`): that case is `none`. -/
def dutf_loop (H : HashFns) (dateParse : String → Option ℚ) (now : ℚ)
    (backoff : ℕ → ℚ) (server : ℕ → Option ℕ → Except String Resp)
    (url : String) (destPath : FPath) (expected : List (String × String)) (resume : Bool) :
    ℕ → ℕ → Option String → Option DLResult → FS → List ℚ → Option DUTFOut
  | 0, attempts, lastErr, prev, fs, sleeps =>
      prev.map fun r =>
        let r := { r with attempts := attempts }
        let r := if !r.success then
            { r with error := some (pyOrS r.error (pyOrS lastErr "Unknown download failure")) }
          else r
        ⟨r, fs, sleeps.reverse⟩
  | fuel + 1, attempts, lastErr, _prev, fs, sleeps =>
      let a := attempts + 1
      let o := attempt_download H dateParse now (server a) fs url destPath expected resume
      if o.res.success then some ⟨{ o.res with attempts := a }, o.fs, sleeps.reverse⟩
      else if optContains o.res.error "429" then
        let raVal := parse_retry_after dateParse now o.res.error
        let wait := if raVal > 0 then raVal else backoff a
        dutf_loop H dateParse now backoff server url destPath expected resume
          fuel a lastErr (some o.res) o.fs (wait :: sleeps)
      else if optContains o.res.error "416" || optContains o.res.error "Checksum mismatch" then
        let part := temp_part_path destPath
        let fs2 := if o.fs.fileExists part then safe_remove o.fs part else o.fs
        dutf_loop H dateParse now backoff server url destPath expected resume
          fuel a lastErr (some o.res) fs2 (backoff a :: sleeps)
      else
        dutf_loop H dateParse now backoff server url destPath expected resume
          fuel a o.res.error (some o.res) o.fs (backoff a :: sleeps)

/-- `DownloadManager.download_url_to_folder`. `maxRetries` is the per-call
override, `selfMaxRetries` the manager default (`max(1, …)` at construction);
`nowInt` is the `int(time.time())` used for the last-resort placeholder
filename. -/
def download_url_to_folder (H : HashFns) (dateParse : String → Option ℚ) (now : ℚ)
    (backoff : ℕ → ℚ) (server : ℕ → Option ℕ → Except String Resp)
    (url : String) (folder : FPath) (filename : Option String)
    (expected : List (String × String)) (maxRetries : Option ℕ) (selfMaxRetries : ℕ)
    (resume : Bool) (nowInt : ℕ) (fs : FS) : Option DUTFOut :=
  let fs := fs.addDir folder
  let max_attempts := pyOrNat maxRetries selfMaxRetries
  let dest_path :=
    if pyTruthyS filename then folder ++ [filename.getD ""]
    else
      let fb := urlBasename url
      folder ++ [if fb ≠ "" then fb else "download-" ++ toString nowInt]
  dutf_loop H dateParse now backoff server url dest_path expected resume
    max_attempts 0 none none fs []

/-- One hash object of the API metadata (`{"algorithm"/"algo": …, "value"/"hash": …}`);
`hashField` models the `"hash"` key. -/
structure HashObj where
  algorithm : Option String
  algo : Option String
  value : Option String
  hashField : Option String
deriving DecidableEq

/-- The two shapes the `"hashes"` metadata field takes (dict or list of objects). -/
inductive HashesVal where
  | hdict (entries : List (String × String))
  | hlist (entries : List HashObj)
deriving DecidableEq

/-- The file-metadata dict fields `build_plan_from_manifest` and
`_download_task` read. -/
structure Meta where
  fileName : Option String
  displayName : Option String
  hashes : Option HashesVal
  fileSize : Option Int
  downloadUrl : Option String
deriving DecidableEq

/-- The external API client: each optional field is present exactly when the
client object has that method (`hasattr` probing); a present method returns
`none` when it returns `None` or raises (both are swallowed identically by
the callers modelled here). -/
structure Client where
  get_mod_file : Option (Int → Int → Option Meta)
  get_file : Option (Int → Int → Option Meta)
  get_modfile : Option (Int → Int → Option Meta)
  get_file_download_url : Option (Int → Int → Option String)
  get_file_download_link : Option (Int → Int → Option String)

/-- `installer.InstallItem`. -/
structure InstallItem where
  project_id : Int
  file_id : Int
  required : Bool
  remote_file_name : Option String
  download_url : Option String
  expected_hashes : List (String × String)
  target_folder : Option FPath
  target_path : Option FPath
  size_bytes : Option Int
  metadata : Option Meta
deriving DecidableEq

/-- `installer.InstallResult`. -/
structure InstallResult where
  item : InstallItem
  success : Bool
  path : Option FPath
  downloaded_bytes : ℕ
  attempts : ℕ
  error : Option String
  checksum_ok : Option Bool
deriving DecidableEq

/-- `installer.ModPackInstallReport` (`time_elapsed`, a wall-clock value, is
not modelled). -/
structure ModPackInstallReport where
  manifest_name : Option String
  manifest_version : Option String
  total_files : ℕ
  successful : ℕ
  failed : ℕ
  results : List InstallResult
  backups : List FPath
  success : Bool
deriving DecidableEq

/-- One entry of the manifest's `files` list, with the alternative key
spellings the planner probes. -/
structure ManifestEntry where
  projectID : Option Int
  projectId : Option Int
  project : Option Int
  fileID : Option Int
  fileId : Option Int
  file : Option Int
  required : Option Bool
deriving DecidableEq

/-- A parsed manifest dict (`manifest_source` is modelled as the already-parsed
dict variant; JSON/zip loading is I/O around the same data).
`manifest.get("files") or []` collapses into the plain `files` list. -/
structure Manifest where
  name : Option String
  version : Option String
  files : List ManifestEntry
  overrides : Option FPath
deriving DecidableEq

/-- `entry.get("projectID") or entry.get("projectId") or entry.get("project")`. -/
def pidOf (e : ManifestEntry) : Option Int := pyOrI e.projectID (pyOrI e.projectId e.project)

/-- `entry.get("fileID") or entry.get("fileId") or entry.get("file")`. -/
def fidOf (e : ManifestEntry) : Option Int := pyOrI e.fileID (pyOrI e.fileId e.file)

/-- `bool(entry.get("required", True))`. -/
def requiredOf (e : ManifestEntry) : Bool := e.required.getD true

/-- Externally observable calls of one installer run: API-client calls, the
streaming HTTP GET of a download attempt, and `time.sleep`s. Filesystem
changes are observed through the threaded `FS` state instead. -/
inductive Effect where
  | netMeta (p f : Int)
  | netUrl (p f : Int)
  | httpGet (p f : Int) (attempt : ℕ)
  | sleep (q : ℚ)
deriving DecidableEq

/-- `paths.InstallPaths.from_custom(root).mods_dir`. -/
def mods_dir (root : FPath) : FPath := root ++ ["mods"]

/-- The hash-mapping normalization in `build_plan_from_manifest`: dict-shaped
hashes are taken as-is, list-shaped ones keyed by lowercased algorithm name;
a falsy (`None`/empty) field gives no hashes. -/
def extract_hashes (hv : Option HashesVal) : List (String × String) :=
  match hv with
  | some (.hdict es) => es
  | some (.hlist es) =>
      es.foldl (fun acc h =>
        let algo := pyOrOptStr h.algorithm h.algo
        let v := pyOrOptStr h.value h.hashField
        if pyTruthyS algo && pyTruthyS v then alSet acc (pyLower (algo.getD "")) (v.getD "")
        else acc) []
  | none => []

/-- The planner's metadata fetch: the `hasattr` chain over
`get_mod_file`/`get_file`/`get_modfile`, returning the metadata (if any) and
the client call made. -/
def plan_meta_call (client : Client) (pid fid : Int) : Option Meta × List Effect :=
  let metaFn :=
    match client.get_mod_file with
    | some f => some f
    | none => match client.get_file with
      | some f => some f
      | none => client.get_modfile
  match metaFn with
  | some f => (f pid fid, [Effect.netMeta pid fid])
  | none => (none, [])

/-- The planner's URL resolution: the `hasattr` chain over
`get_file_download_url`/`get_file_download_link`. -/
def plan_url_call (client : Client) (pid fid : Int) : Option String × List Effect :=
  match client.get_file_download_url with
  | some f => (f pid fid, [Effect.netUrl pid fid])
  | none =>
    match client.get_file_download_link with
    | some f => (f pid fid, [Effect.netUrl pid fid])
    | none => (none, [])

/-- Build one `InstallItem` from a well-formed manifest entry
(the body of the loop in `build_plan_from_manifest` after the
malformed-entry check), returning the item and the client calls made. -/
def plan_item (client : Client) (root : FPath) (pid fid : Int) (required : Bool) :
    InstallItem × List Effect :=
  let mc := plan_meta_call client pid fid
  let metadata := mc.1
  let rfn0 :=
    match metadata with
    | some m => pyOrOptStr m.fileName (pyOrOptStr m.displayName none)
    | none => none
  let hashes :=
    match metadata with
    | some m => extract_hashes m.hashes
    | none => []
  let szBytes :=
    match metadata with
    | some m =>
        (match m.fileSize with
        | some n => if n = 0 then none else some n
        | none => none)
    | none => none
  let uc := plan_url_call client pid fid
  let durl := uc.1
  let folder := mods_dir root
  let rfn1 :=
    if !pyTruthyS rfn0 && pyTruthyS durl then
      let b := urlBasename (durl.getD "")
      if b ≠ "" then some b else rfn0
    else rfn0
  let rt :=
    if pyTruthyS rfn1 then (rfn1, folder ++ [osBasename (rfn1.getD "")])
    else
      let nm := toString pid ++ "-" ++ toString fid ++ ".jar"
      (some nm, folder ++ [nm])
  (⟨pid, fid, required, rt.1, durl, hashes, some folder, some rt.2, szBytes, metadata⟩,
    mc.2 ++ uc.2)

/-- `ModPackInstaller.build_plan_from_manifest`: entries whose project or file
identifier resolves to `None` are skipped silently (`continue`), all others
become one `InstallItem` each. -/
def build_plan_from_manifest (client : Client) (root : FPath) (manifest : Manifest) :
    List InstallItem × List Effect :=
  manifest.files.foldl (fun acc entry =>
    match pidOf entry, fidOf entry with
    | some pid, some fid =>
        let r := plan_item client root pid fid (requiredOf entry)
        (acc.1 ++ [r.1], acc.2 ++ r.2)
    | _, _ => acc) ([], [])

/-- Mutable state of one `_download_task` retry loop: the (mutated-in-place)
item, the last error, the bytes/checksum bookkeeping, the filesystem and the
effect trace. -/
structure DTSt where
  it : InstallItem
  lastErr : Option String
  downloadedBytes : ℕ
  checksumOk : Option Bool
  fs : FS
  eff : List Effect

/-- Final state of one `_download_task` retry loop. -/
structure DTOut where
  st : DTSt
  attempts : ℕ
  success : Bool
  successPath : Option FPath

/-- URL resolution inside one `_download_task` attempt: when the item has no
(truthy) URL, try `client.get_file_download_url`, else fall back to the
metadata's `downloadUrl`. -/
def dt_resolve_url (client : Client) (it : InstallItem) : InstallItem × List Effect :=
  if !pyTruthyS it.download_url then
    match client.get_file_download_url with
    | some f => ({ it with download_url := f it.project_id it.file_id },
        [Effect.netUrl it.project_id it.file_id])
    | none =>
        ({ it with download_url :=
            match it.metadata with
            | some m => m.downloadUrl
            | none => none }, [])
  else (it, [])

/-- Filename fixup inside one `_download_task` attempt: when the item has no
(truthy) remote filename, derive one from the response and retarget the
item. -/
def dt_fix_filename (resp : Resp) (it : InstallItem) : InstallItem :=
  if !pyTruthyS it.remote_file_name then
    match get_filename_from_response resp (it.download_url.getD "") with
    | some fn => { it with
        remote_file_name := some fn,
        target_path := some (it.target_folder.getD [] ++ [fn]) }
    | none => it
  else it

/-- The destination path of one `_download_task` attempt:
`it.target_path or (it.target_folder / (it.remote_file_name or "pid-fid"))`. -/
def dt_dest (it : InstallItem) : FPath :=
  match it.target_path with
  | some p => p
  | none => it.target_folder.getD [] ++
      [pyOrS it.remote_file_name (toString it.project_id ++ "-" ++ toString it.file_id)]

/-- The `try` block of one attempt of `installer._download_task` (attempt
number `a`): URL resolution, the streaming GET, status classification,
filename fixup, the `write_stream_to_tempfile` call and checksum
verification. Errors carry the state as mutated so far. The code after the
`write_stream_to_tempfile` call is unreachable in the source (that helper
always raises, see `write_stream_to_tempfile` above) but is translated
regardless. -/
def dt_try (H : HashFns) (dateParse : String → Option ℚ) (now : ℚ) (env : AWEnv)
    (client : Client) (server : ℕ → Except String Resp) (backoff : ℕ → ℚ)
    (a : ℕ) (st : DTSt) : Except (String × DTSt) (DTSt × FPath) :=
  -- resolve a download URL if the item does not carry one
  let ru := dt_resolve_url client st.it
  let st := { st with it := ru.1, eff := st.eff ++ ru.2 }
  if !pyTruthyS st.it.download_url then
    .error ("No download URL for " ++ toString st.it.project_id ++ "/" ++
      toString st.it.file_id, st)
  else
    let st := { st with eff := st.eff ++ [Effect.httpGet st.it.project_id st.it.file_id a] }
    match server a with
    | .error e => .error (e, st)
    | .ok resp =>
      if resp.status ≥ 400 then
        if resp.status = 429 then
          let ra := parse_retry_after dateParse now resp.retryAfter
          let wait := if ra > 0 then ra else backoff a
          .error ("429 Rate limited; waited " ++ floatStr wait ++ "s then retrying",
            { st with eff := st.eff ++ [Effect.sleep wait] })
        else
          .error ("HTTP " ++ toString resp.status ++ ": " ++ resp.reason, st)
      else
        let st := { st with it := dt_fix_filename resp st.it }
        let dest := dt_dest st.it
        let fs := st.fs.addDir dest.dropLast
        let ws := write_stream_to_tempfile env fs resp.chunks dest true
        match ws.result with
        | .error (.downloadError m) => .error (m, { st with fs := ws.fs })
        | .error (.valueError m) => .error (m, { st with fs := ws.fs })
        | .error (.fileNotFound m) => .error (m, { st with fs := ws.fs })
        | .ok written =>
            let db := match ws.fs.lookupFile written with
              | some c => c.length
              | none => 0
            let st := { st with fs := ws.fs, downloadedBytes := db }
            if st.it.expected_hashes.isEmpty then
              .ok ({ st with checksumOk := none }, written)
            else
              match is_same_file H st.fs written st.it.expected_hashes with
              | .ok (true, _) => .ok ({ st with checksumOk := some true }, written)
              | .ok (false, _) =>
                  .error ("Checksum verification error: Checksum mismatch after download",
                    { st with
                      checksumOk := some false,
                      fs := safe_remove (safe_remove st.fs written) written })
              | .error _ =>
                  .error ("Checksum verification error",
                    { st with fs := safe_remove st.fs written })

/-- The task state carried by a `dt_try` outcome (success or error). -/
def dtTrySt (r : Except (String × DTSt) (DTSt × FPath)) : DTSt :=
  match r with
  | .ok (st, _) => st
  | .error (_, st) => st

/-- The `for attempt in range(1, max_retries + 1)` loop of
`installer._download_task`, by recursion on the remaining budget (`fuel`
starts at `max_retries`, `attempts` at 0). `server n` answers the streaming
GET of attempt `n`. -/
def dt_loop (H : HashFns) (dateParse : String → Option ℚ) (now : ℚ) (env : AWEnv)
    (client : Client) (server : ℕ → Except String Resp) (backoff : ℕ → ℚ)
    (maxRetries : ℕ) : ℕ → ℕ → DTSt → DTOut
  | 0, attempts, st => ⟨st, attempts, false, none⟩
  | fuel + 1, attempts, st =>
    let a := attempts + 1
    match dt_try H dateParse now env client server backoff a st with
    | .ok (st, written) => ⟨{ st with lastErr := none }, a, true, some written⟩
    | .error (msg, st) =>
        let st := { st with lastErr := some msg }
        if a < maxRetries then
          dt_loop H dateParse now env client server backoff maxRetries fuel a
            { st with eff := st.eff ++ [Effect.sleep (backoff a)] }
        else ⟨st, a, false, none⟩

/-- The skip-if-already-correct check of `_download_task`: when the target
exists and matches the (non-empty) expected hashes, return the computed
digests; exceptions from `is_same_file` are swallowed (download proceeds). -/
def dt_skip_check (H : HashFns) (fs : FS) (it : InstallItem) :
    Option (List (String × String)) :=
  match it.target_path with
  | some fp =>
      if fs.fileExists fp && !it.expected_hashes.isEmpty then
        match is_same_file H fs fp it.expected_hashes with
        | .ok (same, computed) => if same then some computed else none
        | .error _ => none
      else none
  | none => none

/-- `installer._download_task`: skip-if-already-correct, else the retry loop. -/
def download_task (H : HashFns) (dateParse : String → Option ℚ) (now : ℚ) (env : AWEnv)
    (client : Client) (server : ℕ → Except String Resp) (backoff : ℕ → ℚ)
    (maxRetries : ℕ) (fs : FS) (it : InstallItem) : InstallResult × FS × List Effect :=
  let final_path := it.target_path
  match dt_skip_check H fs it with
  | some computed =>
      -- downloaded_bytes = computed.get("size", 0) or 0: "size" is never among
      -- the computed digest keys (sha1/sha256/md5), so this is always 0
      let db : ℕ := match alGet computed "size" with
        | some _ => 0
        | none => 0
      (⟨it, true, final_path, db, 0, none, some true⟩, fs, [])
  | none =>
      let o := dt_loop H dateParse now env client server backoff maxRetries maxRetries 0
        ⟨it, none, 0, none, fs, []⟩
      (⟨o.st.it, o.success, if o.success then o.successPath else o.st.it.target_path,
        o.st.downloadedBytes, o.attempts, o.st.lastErr, o.st.checksumOk⟩,
        o.st.fs, o.st.eff)

/-- The standard instance directories `InstallPaths.ensure_dirs` creates. -/
def ensure_dirs_fs (root : FPath) (fs : FS) : FS :=
  [root, root ++ ["mods"], root ++ ["resourcepacks"], root ++ ["shaderpacks"],
    root ++ ["config"], root ++ ["overrides"], root ++ ["saves"], root ++ ["logs"]].foldl
    FS.addDir fs

/-- Directory-creation stage of `install_from_manifest`. -/
def ifm_stage_dirs (create : Bool) (root : FPath) (fs : FS) : FS :=
  if create then ensure_dirs_fs root fs else fs

/-- `<root.name>-backups` next to the instance root. -/
def backup_root_path (root : FPath) : FPath :=
  root.dropLast ++ [root.getLastD "" ++ "-backups"]

/-- The timestamped backup destination. -/
def backup_dest_path (root : FPath) (ts : String) : FPath :=
  backup_root_path root ++ [root.getLastD "" ++ "-" ++ ts]

/-- Backup stage of `install_from_manifest`: creates the backups directory and
`copytree`s the instance root into it; any failure (modelled: the root does
not exist as a directory) is swallowed and disables rollback. -/
def ifm_stage_backup (enabled : Bool) (root : FPath) (ts : String) (fs : FS) :
    FS × Option FPath :=
  if enabled then
    let fs := fs.addDir (backup_root_path root)
    if fs.dirExists root then
      (fs.copyTree root (backup_dest_path root ts), some (backup_dest_path root ts))
    else (fs, none)
  else (fs, none)

/-- The override-application walk: every file under `ov` is copied to the
corresponding location under `root` (overwriting), every directory is
created. Snapshot semantics (the source tree is read as it was when the walk
started). -/
def overrides_copy (fs : FS) (ov root : FPath) : FS :=
  { files := fun q =>
      if root <+: q then (fs.files (ov ++ q.drop root.length)).elim (fs.files q) some
      else fs.files q,
    dirs := fun q =>
      if root <+: q then fs.dirs (ov ++ q.drop root.length) || fs.dirs q
      else fs.dirs q }

/-- Overrides stage of `install_from_manifest` for a dict manifest source:
the manifest's `overrides` path is used when truthy and existing; the copy
only happens when `overwrite` is set, and `os.walk` of a non-directory copies
nothing. -/
def ifm_stage_overrides (overwrite : Bool) (root : FPath) (manifest : Manifest) (fs : FS) : FS :=
  match manifest.overrides with
  | some ov =>
      if ov ≠ [] && (fs.dirExists ov || fs.fileExists ov) then
        if overwrite && fs.dirExists ov then overrides_copy fs ov root else fs
      else fs
  | none => fs

/-- Rollback stage: with required failures and a recorded backup, the root is
removed and the backup moved into its place (the best-effort removal/move are
modelled as succeeding). -/
def ifm_stage_rollback (failed : ℕ) (backupPath : Option FPath) (root : FPath) (fs : FS) : FS :=
  match backupPath with
  | some bp => if failed > 0 then (safe_remove fs root).moveTree bp root else fs
  | none => fs

/-- Cleanup stage: delete the backup after a success unless preserved. -/
def ifm_stage_cleanup (backupPath : Option FPath) (success preserve : Bool) (fs : FS) : FS :=
  match backupPath with
  | some bp => if success && !preserve then safe_remove fs bp else fs
  | none => fs

/-- Result of one `install_from_manifest` run. -/
structure IFMOut where
  report : ModPackInstallReport
  fs : FS
  effects : List Effect

/-- The per-item tasks, threaded sequentially (the thread pool's completion
order is some permutation of this; every property proved below is invariant
under permutation of the results list). `server p f n` answers attempt `n`
for item `(p, f)`. -/
def ifm_downloads (H : HashFns) (dateParse : String → Option ℚ) (now : ℚ) (env : AWEnv)
    (client : Client) (server : Int → Int → ℕ → Except String Resp) (backoff : ℕ → ℚ)
    (maxRetries : ℕ) (items : List InstallItem) (fs : FS) :
    List InstallResult × FS × List Effect :=
  items.foldl (fun acc it =>
    let r := download_task H dateParse now env client (server it.project_id it.file_id)
      backoff maxRetries acc.2.1 it
    (acc.1 ++ [r.1], r.2.1, acc.2.2 ++ r.2.2)) ([], fs, [])

/-- The dry-run short-circuit of `install_from_manifest`: one placeholder
result per planned item, no download, `success = false`. -/
def ifm_dry_branch (manifest : Manifest) (items : List InstallItem) (planEff : List Effect)
    (backups : List FPath) (fs : FS) : IFMOut :=
  let results := items.map fun it =>
    (⟨it, false, it.target_path, 0, 0, some "dry-run", none⟩ : InstallResult)
  ⟨⟨manifest.name, manifest.version, items.length, 0, 0, results, backups, false⟩, fs, planEff⟩

/-- The non-dry-run remainder of `install_from_manifest`: create target
folders, run the per-item tasks, aggregate, apply overrides, roll back on
required failures, clean up the backup. -/
def ifm_main (H : HashFns) (dateParse : String → Option ℚ) (now : ℚ) (env : AWEnv)
    (client : Client) (server : Int → Int → ℕ → Except String Resp) (backoff : ℕ → ℚ)
    (maxRetries : ℕ) (manifest : Manifest) (root : FPath)
    (overwrite preserve_backups : Bool) (backupPath : Option FPath) (backups : List FPath)
    (items : List InstallItem) (planEff : List Effect) (fs : FS) : IFMOut :=
  let fs := items.foldl (fun fs it =>
    match it.target_folder with
    | some d => fs.addDir d
    | none => fs) fs
  let dl := ifm_downloads H dateParse now env client server backoff maxRetries items fs
  let results := dl.1
  let fs := dl.2.1
  let successful := results.countP (·.success)
  let failed := results.countP (fun r => !r.success && r.item.required)
  let succ := failed == 0
  let fs := ifm_stage_overrides overwrite root manifest fs
  let fs := ifm_stage_rollback failed backupPath root fs
  let fs := ifm_stage_cleanup backupPath succ preserve_backups fs
  ⟨⟨manifest.name, manifest.version, items.length, successful, failed, results, backups, succ⟩,
    fs, planEff ++ dl.2.2⟩

/-- `ModPackInstaller.install_from_manifest` for a dict manifest source.
`maxRetries` is `self.max_retries` (`max(1, …)` at construction),
`backupOnFailure` is `self.backup_on_failure`, `bkTs` the backup timestamp. -/
def install_from_manifest (H : HashFns) (dateParse : String → Option ℚ) (now : ℚ)
    (env : AWEnv) (client : Client) (server : Int → Int → ℕ → Except String Resp)
    (backoff : ℕ → ℚ) (maxRetries : ℕ) (backupOnFailure : Bool)
    (manifest : Manifest) (root : FPath)
    (create_instance_dirs overwrite dry_run preserve_backups : Bool)
    (bkTs : String) (fs0 : FS) : IFMOut :=
  let fs := ifm_stage_dirs create_instance_dirs root fs0
  let bk := ifm_stage_backup backupOnFailure root bkTs fs
  let fs := bk.1
  let backupPath := bk.2
  let backups := match backupPath with
    | some bp => [bp]
    | none => []
  let plan := build_plan_from_manifest client root manifest
  let items := plan.1
  if dry_run then
    ifm_dry_branch manifest items plan.2 backups fs
  else
    ifm_main H dateParse now env client server backoff maxRetries manifest root
      overwrite preserve_backups backupPath backups items plan.2 fs

/-- The shape invariant the planner establishes and `_download_task`
maintains: the item's target folder is the instance's `mods` directory and
its target path (when set) is a file directly inside it. -/
def ItemUnderRoot (root : FPath) (it : InstallItem) : Prop :=
  it.target_folder = some (root ++ ["mods"])
  ∧ (it.target_path = none ∨ ∃ s, it.target_path = some (root ++ ["mods", s]))

/-- Whether an effect is a plan-building client call (metadata fetch or URL
resolution), as opposed to a streaming download request or a sleep. -/
def Effect.isClientCall : Effect → Bool
  | .netMeta _ _ => true
  | .netUrl _ _ => true
  | _ => false

/-!  Concrete fixtures used by witnesses and counterexamples. -/

/-- Hash functions giving content `[7]` the sha1 digest `"aa"`. -/
def cH : HashFns := ⟨fun c => if c = [7] then "aa" else "xx", fun _ => "s2", fun _ => "s3"⟩

/-- An environment in which every OS operation succeeds. -/
def cEnv : AWEnv := ⟨["tmp", "t1"], true, true, true, true⟩

/-- An environment in which `os.replace` and the fallback `shutil.move` fail. -/
def cEnvMoveFail : AWEnv := ⟨["d", "t1"], true, false, true, false⟩

/-- A filesystem holding one file `d/f` with content `[1]`. -/
def cFsOne : FS := ⟨fun p => if p = ["d", "f"] then some [1] else none, fun _ => false⟩

/-- A filesystem holding one file `inst/mods/m.jar` with content `[7]`. -/
def cFsHash : FS := ⟨fun p => if p = ["inst", "mods", "m.jar"] then some [7] else none,
  fun _ => false⟩

/-- A filesystem in which only the directory `inst` exists. -/
def cFsRoot : FS := ⟨fun _ => none, fun p => p = ["inst"]⟩

/-- A client exposing only `get_file_download_url`. -/
def cClient : Client :=
  ⟨none, none, none,
    some (fun p f => some ("http://x/" ++ toString p ++ "-" ++ toString f ++ ".jar")), none⟩

/-- A well-formed manifest entry `(projectID=1, fileID=2)`. -/
def cEntryGood : ManifestEntry := ⟨some 1, none, none, some 2, none, none, none⟩

/-- A manifest entry with no project/file identifier at all. -/
def cEntryBad : ManifestEntry := ⟨none, none, none, none, none, none, none⟩

/-- A manifest with one well-formed and one malformed entry. -/
def cManifest : Manifest := ⟨some "mp", some "1.0", [cEntryGood, cEntryBad], none⟩

/-- A server that always answers HTTP 500. -/
def cServer500 : Int → Int → ℕ → Except String Resp :=
  fun _ _ _ => .ok ⟨500, "ISE", none, none, [], none⟩

/-- A 429 response carrying `Retry-After: 2`. -/
def cResp429 : Resp := ⟨429, "Too Many Requests", some "2", none, [], none⟩

/-- A 200 response with a three-byte body. -/
def cResp200 : Resp := ⟨200, "OK", none, some 3, [[1, 2, 3]], none⟩

/-- A download source answering 429 (`Retry-After: 2`) on the first attempt
and 200 on the second. -/
def cServer429 : ℕ → Option ℕ → Except String Resp :=
  fun n _ => if n = 1 then .ok cResp429 else .ok cResp200

/-- `exponential_backoff` with the jitter sample fixed at 1/2 (zero jitter)
and rounding abstracted away, at the installer's default base 0.6. -/
def cBackoff : ℕ → ℚ := fun a => exponential_backoff (1 / 2) id a (6 / 10) 2 30

/-- An item whose target file exists in `cFsHash` and matches its sha1 hash. -/
def cItemHit : InstallItem :=
  ⟨1, 2, true, some "m.jar", none, [("sha1", "AA")], some ["inst", "mods"],
    some ["inst", "mods", "m.jar"], none, none⟩

/-!  Helper lemmas. -/

lemma char_ofNat_toNat_valid (n : Nat) (h : n.isValidChar) : (Char.ofNat n).toNat = n := by
  simp [Char.ofNat, h, Char.ofNatAux, Char.toNat, UInt32.toNat, BitVec.toNat_ofNatLt]

lemma char_toLower_idem (c : Char) : c.toLower.toLower = c.toLower := by
  simp only [Char.toLower]
  split
  · next h =>
    have hv : (c.toNat + 32).isValidChar := by
      constructor
      omega
    have hval : (Char.ofNat (c.toNat + 32)).toNat = c.toNat + 32 :=
      char_ofNat_toNat_valid _ hv
    rw [hval]
    have hne : ¬(c.toNat + 32 ≥ 65 ∧ c.toNat + 32 ≤ 90) := by omega
    rw [if_neg hne]
  · rfl

lemma pyLower_idem (s : String) : pyLower (pyLower s) = pyLower s := by
  have h : Char.toLower ∘ Char.toLower = Char.toLower := funext char_toLower_idem
  simp [pyLower, List.map_map, h]

lemma pyLower_eq_empty_iff (s : String) : pyLower s = "" ↔ s = "" := by
  constructor
  · intro h
    have := congrArg String.data h
    simp [pyLower] at this
    cases s with
    | mk data => simp_all
  · intro h
    subst h
    rfl

lemma temp_part_path_ne (d : FPath) : temp_part_path d ≠ d := by
  intro h
  unfold temp_part_path at h
  cases hl : d.getLast? with
  | none =>
    rw [List.getLast?_eq_none_iff] at hl
    subst hl
    simp at h
  | some s =>
    have hd : d ≠ [] := by
      intro hnil
      subst hnil
      simp at hl
    have hlast : (d.dropLast ++ [d.getLastD "" ++ ".part"]).getLast? =
        some (d.getLastD "" ++ ".part") := by
      simp
    rw [h, hl] at hlast
    have hgd : d.getLastD "" = s := by
      simp [List.getLastD_eq_getLast?, hl]
    rw [hgd] at hlast
    have : s = s ++ ".part" := by
      exact (Option.some.injEq _ _).mp hlast
    have hlen := congrArg (fun t => t.data.length) this
    simp [String.data_append] at hlen

lemma alSet_not_mem (l : List (String × String)) (k v : String)
    (h : ∀ e ∈ l, e.1 ≠ k) : alSet l k v = l ++ [(k, v)] := by
  unfold alSet
  have hf : l.find? (fun e => e.1 == k) = none := by
    rw [List.find?_eq_none]
    intro x hx
    simp [h x hx]
  simp [hf]

lemma normExpected_go (l acc : List (String × String))
    (hne : ∀ e ∈ l, e.2 ≠ "")
    (hdis : ∀ e ∈ l, ∀ a ∈ acc, a.1 ≠ pyLower e.1)
    (hnd : (l.map (fun e => pyLower e.1)).Nodup) :
    l.foldl (fun acc e =>
        if e.2 = "" then acc else alSet acc (pyLower e.1) (pyLower e.2)) acc =
      acc ++ l.map (fun e => (pyLower e.1, pyLower e.2)) := by
  induction l generalizing acc with
  | nil => simp
  | cons e l ih =>
    have he2 : e.2 ≠ "" := hne e (by simp)
    have hstep : alSet acc (pyLower e.1) (pyLower e.2) =
        acc ++ [(pyLower e.1, pyLower e.2)] :=
      alSet_not_mem acc _ _ (fun a ha => hdis e (by simp) a ha)
    simp only [List.foldl_cons, if_neg he2, hstep]
    rw [ih]
    · simp
    · exact fun x hx => hne x (by simp [hx])
    · intro x hx a ha
      rcases List.mem_append.mp ha with h1 | h1
      · exact hdis x (by simp [hx]) a h1
      · have : a = (pyLower e.1, pyLower e.2) := by simpa using h1
        subst this
        simp only [List.map_cons, List.nodup_cons] at hnd
        intro hcontra
        simp only at hcontra
        exact hnd.1 (by rw [hcontra]; exact List.mem_map_of_mem _ hx)
    · simp only [List.map_cons, List.nodup_cons] at hnd
      exact hnd.2

lemma normExpected_eq (expected : List (String × String))
    (hnd : (expected.map (fun e => pyLower e.1)).Nodup)
    (hne : ∀ e ∈ expected, e.2 ≠ "") :
    normExpected expected = expected.map (fun e => (pyLower e.1, pyLower e.2)) := by
  have := normExpected_go expected [] hne (by simp) hnd
  simpa [normExpected] using this

lemma is_same_file_matches_iff (H : HashFns) (c : Bytes)
    (expected : List (String × String))
    (hnd : (expected.map (fun e => pyLower e.1)).Nodup)
    (hne : ∀ e ∈ expected, e.2 ≠ "") :
    ((normExpected expected).any (fun e =>
        match alGet (computeHashes H c) e.1 with
        | some actual => actual ≠ "" && pyLower actual == pyLower e.2
        | none => false) = true
      ↔ ∃ e ∈ expected, ∃ d,
          alGet (computeHashes H c) (pyLower e.1) = some d ∧ pyLower d = pyLower e.2) := by
  rw [normExpected_eq expected hnd hne, List.any_eq_true]
  constructor
  · rintro ⟨p, hp, hpred⟩
    rcases List.mem_map.mp hp with ⟨e, he, rfl⟩
    rcases hget : alGet (computeHashes H c) (pyLower e.1) with _ | d
    · rw [hget] at hpred
      simp at hpred
    · rw [hget] at hpred
      simp only [Bool.and_eq_true, beq_iff_eq, ne_eq, decide_not] at hpred
      refine ⟨e, he, d, hget, ?_⟩
      rw [hpred.2, pyLower_idem]
  · rintro ⟨e, he, d, hget, hd⟩
    refine ⟨(pyLower e.1, pyLower e.2), List.mem_map_of_mem _ he, ?_⟩
    rw [hget]
    have hd0 : d ≠ "" := by
      intro h0
      subst h0
      have : pyLower e.2 = "" := by
        rw [← hd]
        rfl
      exact hne e he ((pyLower_eq_empty_iff e.2).mp this)
    simp only [Bool.and_eq_true, beq_iff_eq, ne_eq, decide_not]
    constructor
    · simpa using hd0
    · rw [hd, pyLower_idem]

lemma attempt_download_5xx (H : HashFns) (dateParse : String → Option ℚ) (now : ℚ)
    (server : Option ℕ → Except String Resp) (fs : FS) (url : String)
    (destPath : FPath) (expected : List (String × String)) (resume : Bool)
    (resp : Resp)
    (hs : server (attempt_range fs destPath resume) = .ok resp)
    (h1 : 500 ≤ resp.status) (h2 : resp.status ≤ 599) :
    attempt_download H dateParse now server fs url destPath expected resume =
      ⟨⟨url, none, false, 1, 0,
        some ("HTTP " ++ toString resp.status ++ ": " ++ resp.reason)⟩,
        fs.addDir destPath.dropLast⟩ := by
  have hr : attempt_range (fs.addDir destPath.dropLast) destPath resume =
      attempt_range fs destPath resume := by
    simp [attempt_range, FS.addDir, FS.fileExists, FS.lookupFile]
  unfold attempt_download
  dsimp only
  rw [hr, hs]
  have h404 : ¬(resp.status = 404 || resp.status = 410) = true := by
    simp only [Bool.or_eq_true, decide_eq_true_eq]
    omega
  have h416 : ¬resp.status = 416 := by omega
  have h429 : ¬resp.status = 429 := by omega
  have h400 : resp.status ≥ 400 := by omega
  simp [h404, h416, h429, h400]

lemma http_err_ne_empty (s : ℕ) (r : String) :
    ("HTTP " ++ toString s ++ ": " ++ r) ≠ "" := by
  intro h
  have := congrArg (fun t => t.data.length) h
  simp [String.data_append] at this

lemma dutf_loop_5xx (H : HashFns) (dateParse : String → Option ℚ) (now : ℚ)
    (backoff : ℕ → ℚ) (server : ℕ → Option ℕ → Except String Resp)
    (url : String) (destPath : FPath) (expected : List (String × String)) (resume : Bool)
    (h5 : ∀ n range, ∃ resp, server n range = .ok resp
      ∧ 500 ≤ resp.status ∧ resp.status ≤ 599) :
    ∀ fuel, 1 ≤ fuel → ∀ attempts lastErr prev fs sleeps,
      ∃ (out : DUTFOut) (resp : Resp), dutf_loop H dateParse now backoff server url destPath expected resume
          fuel attempts lastErr prev fs sleeps = some out
        ∧ out.result.attempts = attempts + fuel
        ∧ out.result.success = false
        ∧ 500 ≤ resp.status ∧ resp.status ≤ 599
        ∧ out.result.error = some ("HTTP " ++ toString resp.status ++ ": " ++ resp.reason) := by
  intro fuel
  induction fuel with
  | zero => omega
  | succ k ih =>
    intro _ attempts lastErr prev fs sleeps
    obtain ⟨resp, hs, h1, h2⟩ := h5 (attempts + 1) (attempt_range fs destPath resume)
    have hatt := attempt_download_5xx H dateParse now (server (attempts + 1)) fs url destPath
      expected resume resp hs h1 h2
    have hcont : ∀ lastErr' fs' sleeps',
        ∃ (out : DUTFOut) (resp' : Resp), dutf_loop H dateParse now backoff server url destPath expected resume
            k (attempts + 1) lastErr' (some ⟨url, none, false, 1, 0,
              some ("HTTP " ++ toString resp.status ++ ": " ++ resp.reason)⟩) fs' sleeps' =
            some out
          ∧ out.result.attempts = attempts + 1 + k
          ∧ out.result.success = false
          ∧ 500 ≤ resp'.status ∧ resp'.status ≤ 599
          ∧ out.result.error = some ("HTTP " ++ toString resp'.status ++ ": " ++ resp'.reason) := by
      intro lastErr' fs' sleeps'
      cases k with
      | zero =>
        refine ⟨_, resp, rfl, ?_, ?_, h1, h2, ?_⟩ <;>
          simp [dutf_loop, pyOrS, http_err_ne_empty]
      | succ k' =>
        obtain ⟨out, resp', hout, ha, hsucc, hr1, hr2, herr⟩ :=
          ih (by omega) (attempts + 1) lastErr' (some ⟨url, none, false, 1, 0,
            some ("HTTP " ++ toString resp.status ++ ": " ++ resp.reason)⟩) fs' sleeps'
        exact ⟨out, resp', hout, by omega, hsucc, hr1, hr2, herr⟩
    show ∃ (out : DUTFOut) (resp : Resp), dutf_loop H dateParse now backoff server url destPath expected resume
        (k + 1) attempts lastErr prev fs sleeps = some out ∧ _
    rw [dutf_loop]
    dsimp only
    rw [hatt]
    dsimp only
    by_cases hb1 : optContains (some ("HTTP " ++ toString resp.status ++ ": " ++ resp.reason))
        "429" = true
    · simp only [hb1, if_true, if_false]
      obtain ⟨out, resp', hout, ha, hsucc, hr1, hr2, herr⟩ := hcont lastErr _ _
      refine ⟨out, resp', ?_, by omega, hsucc, hr1, hr2, herr⟩
      simpa using hout
    · by_cases hb2 : (optContains (some ("HTTP " ++ toString resp.status ++ ": " ++ resp.reason))
          "416" || optContains (some ("HTTP " ++ toString resp.status ++ ": " ++ resp.reason))
          "Checksum mismatch") = true
      · simp only [Bool.not_eq_true] at hb1
        simp only [hb1, hb2, if_true, if_false, Bool.false_eq_true]
        obtain ⟨out, resp', hout, ha, hsucc, hr1, hr2, herr⟩ := hcont lastErr _ _
        refine ⟨out, resp', ?_, by omega, hsucc, hr1, hr2, herr⟩
        simpa using hout
      · simp only [Bool.not_eq_true] at hb1 hb2
        simp only [hb1, hb2, if_true, if_false, Bool.false_eq_true]
        obtain ⟨out, resp', hout, ha, hsucc, hr1, hr2, herr⟩ := hcont
          (some ("HTTP " ++ toString resp.status ++ ": " ++ resp.reason)) _ _
        refine ⟨out, resp', ?_, by omega, hsucc, hr1, hr2, herr⟩
        simpa using hout

lemma write_stream_fs_eq (env : AWEnv) (fs : FS) (chunks : List Bytes) (dest : FPath)
    (resume : Bool) :
    write_stream_to_tempfile env fs chunks dest resume =
      ⟨.error (.downloadError
          "Failed writing stream to temp file: Provide exactly one of data or chunks."),
        (((fs.addDir dest.dropLast).setFile (temp_part_path dest)
          ((if resume && (fs.addDir dest.dropLast).fileExists (temp_part_path dest)
            then ((fs.addDir dest.dropLast).lookupFile (temp_part_path dest)).getD [] else [])
            ++ chunks.flatten)).addDir dest.dropLast)⟩ := rfl

lemma dt_resolve_url_target (client : Client) (it : InstallItem) :
    (dt_resolve_url client it).1.target_folder = it.target_folder
    ∧ (dt_resolve_url client it).1.target_path = it.target_path := by
  unfold dt_resolve_url
  by_cases h : (!pyTruthyS it.download_url) = true
  · rw [if_pos h]
    rcases client.get_file_download_url with _ | f
    · exact ⟨rfl, rfl⟩
    · exact ⟨rfl, rfl⟩
  · rw [if_neg h]
    exact ⟨rfl, rfl⟩

lemma dt_fix_filename_inv (root : FPath) (resp : Resp) (it : InstallItem)
    (h : ItemUnderRoot root it) : ItemUnderRoot root (dt_fix_filename resp it) := by
  unfold dt_fix_filename
  by_cases hn : (!pyTruthyS it.remote_file_name) = true
  · rw [if_pos hn]
    rcases get_filename_from_response resp (it.download_url.getD "") with _ | fn
    · exact h
    · refine ⟨h.1, .inr ⟨fn, ?_⟩⟩
      show some (it.target_folder.getD [] ++ [fn]) = _
      rw [h.1]
      simp
  · rw [if_neg hn]
    exact h

lemma dt_dest_shape (root : FPath) (it : InstallItem) (h : ItemUnderRoot root it) :
    ∃ s, dt_dest it = root ++ ["mods", s] := by
  unfold dt_dest
  rcases h.2 with hp | ⟨s, hp⟩
  · rw [hp]
    refine ⟨pyOrS it.remote_file_name
      (toString it.project_id ++ "-" ++ toString it.file_id), ?_⟩
    rw [h.1]
    simp
  · rw [hp]
    exact ⟨s, rfl⟩

lemma root_prefix_mods_s (root : FPath) (s : String) : root <+: root ++ ["mods", s] :=
  ⟨["mods", s], rfl⟩

lemma temp_part_path_mods (root : FPath) (s : String) :
    temp_part_path (root ++ ["mods", s]) = root ++ ["mods", s ++ ".part"] := by
  unfold temp_part_path
  have h1 : (root ++ ["mods", s]).dropLast = root ++ ["mods"] := by
    rw [List.dropLast_append_of_ne_nil]
    · rfl
    · simp
  have h2 : (root ++ ["mods", s]).getLastD "" = s := by
    simp [List.getLastD_eq_getLast?]
  rw [h1, h2]
  simp

lemma dropLast_mods (root : FPath) (s : String) :
    (root ++ ["mods", s]).dropLast = root ++ ["mods"] := by
  rw [List.dropLast_append_of_ne_nil]
  · rfl
  · simp

lemma dt_try_frame (H : HashFns) (dateParse : String → Option ℚ) (now : ℚ) (env : AWEnv)
    (client : Client) (server : ℕ → Except String Resp) (backoff : ℕ → ℚ)
    (root : FPath) (a : ℕ) (st : DTSt) (hinv : ItemUnderRoot root st.it) :
    ItemUnderRoot root (dtTrySt (dt_try H dateParse now env client server backoff a st)).it
    ∧ ∀ q, ¬(root <+: q) →
      (dtTrySt (dt_try H dateParse now env client server backoff a st)).fs.files q =
        st.fs.files q
      ∧ (dtTrySt (dt_try H dateParse now env client server backoff a st)).fs.dirs q =
        st.fs.dirs q := by
  obtain ⟨htf, htp⟩ := dt_resolve_url_target client st.it
  have hinv1 : ItemUnderRoot root (dt_resolve_url client st.it).1 :=
    ⟨by rw [htf]; exact hinv.1, by rw [htp]; exact hinv.2⟩
  unfold dt_try
  dsimp only
  by_cases h1 : (!pyTruthyS (dt_resolve_url client st.it).1.download_url) = true
  · rw [if_pos h1]
    exact ⟨hinv1, fun q hq => ⟨rfl, rfl⟩⟩
  · rw [if_neg h1]
    cases hs : server a with
    | error e => exact ⟨hinv1, fun q hq => ⟨rfl, rfl⟩⟩
    | ok resp =>
      dsimp only
      by_cases h4 : resp.status ≥ 400
      · rw [if_pos h4]
        by_cases h429 : resp.status = 429
        · rw [if_pos h429]
          exact ⟨hinv1, fun q hq => ⟨rfl, rfl⟩⟩
        · rw [if_neg h429]
          exact ⟨hinv1, fun q hq => ⟨rfl, rfl⟩⟩
      · rw [if_neg h4]
        have hinv2 : ItemUnderRoot root (dt_fix_filename resp (dt_resolve_url client st.it).1) :=
          dt_fix_filename_inv root resp _ hinv1
        obtain ⟨s, hdest⟩ := dt_dest_shape root _ hinv2
        rw [hdest, write_stream_fs_eq]
        dsimp only
        refine ⟨hinv2, fun q hq => ?_⟩
        have hq_dd : q ≠ root ++ ["mods"] := fun h => hq (h ▸ ⟨["mods"], rfl⟩)
        have hq_part : q ≠ root ++ ["mods", s ++ ".part"] := fun h =>
      hq (h ▸ root_prefix_mods_s root (s ++ ".part"))
        rw [temp_part_path_mods, dropLast_mods]
        constructor
        · simp [dtTrySt, FS.addDir, FS.setFile, hq_part]
        · simp [dtTrySt, FS.addDir, FS.setFile, hq_dd]

/-!  Claim C1. -/

/-- C1: in `_download_task`, a 2xx streaming GET is claimed to stream the body
to a `.part` file, promote it atomically onto the target, verify the
checksum, and leave the complete file at the target on success. The streaming
part is real, but `write_stream_to_tempfile` then calls
`atomic_write(dest, chunks=None, data=None)` — a "placeholder" whose argument
validation always raises — so every call fails with a `DownloadError`, the
destination is never written and the `.part` file is never promoted. -/
theorem writeStream_never_promotes (env : AWEnv) (fs : FS) (chunks : List Bytes)
    (dest : FPath) (resume : Bool) :
    (write_stream_to_tempfile env fs chunks dest resume).result =
      .error (.downloadError
        "Failed writing stream to temp file: Provide exactly one of data or chunks.")
    ∧ (write_stream_to_tempfile env fs chunks dest resume).fs.files dest = fs.files dest
    ∧ (write_stream_to_tempfile env fs chunks dest resume).fs.files (temp_part_path dest) =
        some ((if resume && fs.fileExists (temp_part_path dest)
          then (fs.lookupFile (temp_part_path dest)).getD [] else []) ++ chunks.flatten) := by
  have hne : dest ≠ temp_part_path dest := fun h => temp_part_path_ne dest h.symm
  unfold write_stream_to_tempfile atomic_write
  simp [FS.addDir, FS.setFile, FS.fileExists, FS.lookupFile, hne]

/-!  Claim C7. -/

/-- C7 counterexample: an `atomic_write` whose `os.replace` fails and whose
fallback `shutil.move` also fails first unlinks the existing destination, so
the call errors with the destination deleted — not left untouched as the
claim states. -/
theorem atomic_write_deletes_dest_counterexample :
    (atomic_write cEnvMoveFail cFsOne ["d", "f"] (some [9]) none).result =
      .error (.downloadError "Failed to move temp file to destination")
    ∧ cFsOne.files ["d", "f"] = some [1]
    ∧ (atomic_write cEnvMoveFail cFsOne ["d", "f"] (some [9]) none).fs.files ["d", "f"] = none := by
  with_unfolding_all decide

/-- C7 (amended): on every failing `atomic_write` call the temporary file is
removed and an error is raised, and the destination is left untouched —
except when `os.replace` fails and the fallback `shutil.move` also fails
after an existing destination was unlinked, in which case the destination is
deleted. -/
theorem atomic_write_failure_cleanup (env : AWEnv) (fs : FS) (dest : FPath)
    (data chunks : Option Bytes) (hfresh : fs.files env.tmpName = none) :
    ∀ m, (atomic_write env fs dest data chunks).result = .error m →
      (atomic_write env fs dest data chunks).fs.files env.tmpName = none
      ∧ ((atomic_write env fs dest data chunks).fs.files dest = fs.files dest
        ∨ (env.replaceOk = false ∧ env.moveOk = false
          ∧ (atomic_write env fs dest data chunks).fs.files dest = none)) := by
  intro m
  unfold atomic_write
  by_cases hv : (data.isNone && chunks.isNone) || (data.isSome && chunks.isSome)
  · simp [hv, FS.addDir, hfresh]
  · by_cases hw : env.writeOk
    · by_cases hr : env.replaceOk
      · simp [hv, hw, hr, FS.addDir, FS.setFile, FS.removeFile]
      · by_cases hx : dest = env.tmpName
        · subst hx
          by_cases hu : env.unlinkOk <;> by_cases hm : env.moveOk <;>
            simp [hv, hw, hr, hu, hm, FS.addDir, FS.setFile, FS.removeFile, FS.fileExists, hfresh]
        · by_cases hu : env.unlinkOk <;> by_cases hm : env.moveOk <;>
            by_cases he : (fs.files dest).isSome <;>
            simp [hv, hw, hr, hu, hm, he, FS.addDir, FS.setFile, FS.removeFile, FS.fileExists,
              hfresh, hx]
    · by_cases hx : dest = env.tmpName
      · subst hx
        simp [hv, hw, FS.addDir, FS.setFile, FS.removeFile, hfresh]
      · simp [hv, hw, FS.addDir, FS.setFile, FS.removeFile, hfresh, hx]

/-!  Claim C5. -/

/-- C5: against a source whose every response is a 5xx status,
`download_url_to_folder` performs exactly `max_attempts` attempts (never one
more), returns `success = false`, `attempts = max_attempts`, and carries the
last error encountered (an `HTTP 5xx` message from the final attempt). -/
theorem download_url_to_folder_exhausts_attempts (H : HashFns)
    (dateParse : String → Option ℚ) (now : ℚ) (backoff : ℕ → ℚ)
    (server : ℕ → Option ℕ → Except String Resp) (url : String) (folder : FPath)
    (filename : Option String) (expected : List (String × String))
    (maxRetries : Option ℕ) (selfMaxRetries : ℕ) (resume : Bool) (nowInt : ℕ) (fs : FS)
    (hmax : 1 ≤ pyOrNat maxRetries selfMaxRetries)
    (h5 : ∀ n range, ∃ resp, server n range = .ok resp
      ∧ 500 ≤ resp.status ∧ resp.status ≤ 599) :
    ∃ (out : DUTFOut) (resp : Resp),
      download_url_to_folder H dateParse now backoff server url folder filename expected
        maxRetries selfMaxRetries resume nowInt fs = some out
      ∧ out.result.attempts = pyOrNat maxRetries selfMaxRetries
      ∧ out.result.success = false
      ∧ 500 ≤ resp.status ∧ resp.status ≤ 599
      ∧ out.result.error = some ("HTTP " ++ toString resp.status ++ ": " ++ resp.reason) := by
  unfold download_url_to_folder
  dsimp only
  obtain ⟨out, resp, hout, ha, hs, h1, h2, herr⟩ :=
    dutf_loop_5xx H dateParse now backoff server url _ expected resume h5
      (pyOrNat maxRetries selfMaxRetries) hmax 0 none none (fs.addDir folder) []
  exact ⟨out, resp, hout, by simpa using ha, hs, h1, h2, herr⟩

/-- C5 witness: three attempts against a permanent-500 source. -/
theorem download_url_to_folder_exhausts_attempts_witness :
    ∃ (out : DUTFOut) (resp : Resp),
      download_url_to_folder cH (fun _ => none) 0 cBackoff
        (fun _ _ => .ok ⟨500, "ISE", none, none, [], none⟩) "http://x/f.jar" ["dl"] none []
        none 3 true 0 cFsRoot = some out
      ∧ out.result.attempts = pyOrNat none 3
      ∧ out.result.success = false
      ∧ 500 ≤ resp.status ∧ resp.status ≤ 599
      ∧ out.result.error = some ("HTTP " ++ toString resp.status ++ ": " ++ resp.reason) :=
  download_url_to_folder_exhausts_attempts cH (fun _ => none) 0 cBackoff
    (fun _ _ => .ok ⟨500, "ISE", none, none, [], none⟩) "http://x/f.jar" ["dl"] none []
    none 3 true 0 cFsRoot (by decide)
    (fun _ _ => ⟨⟨500, "ISE", none, none, [], none⟩, rfl, by decide, by decide⟩)

/-!  Claim C2. -/

/-- C2: the claim says a 429 attempt with a positive `Retry-After: 2` makes
`download_url_to_folder` sleep the server-declared 2 seconds before the next
attempt. In the code the wrapper calls `parse_retry_after(result.error)` on
the whole error string `"429 Rate limited; retry-after=2.0"`, which parses to
0, so it falls back to exponential backoff: with the default base 0.6 (jitter
fixed at zero) the single inter-attempt sleep is 0.6 s — not 2 s — while the
run still succeeds with `attempts = 2`. -/
theorem dutf_429_ignores_retry_after :
    ((download_url_to_folder cH (fun _ => none) 0 cBackoff cServer429 "http://x/f.jar"
      ["dl"] none [] none 4 true 0 cFsRoot).map
        (fun o => (o.result.success, o.result.attempts, o.result.bytes, o.sleeps))) =
      some (true, 2, 3, [3 / 5])
    ∧ (3 : ℚ) / 5 < 2 := by
  constructor
  · with_unfolding_all decide
  · with_unfolding_all decide

/-!  Claim C6. -/

/-- C6: `is_same_file` raises a not-found error when the path does not exist;
on an existing file it returns the computed digests together with `matches`,
which is `false` whenever `expected_hashes` is empty, and — for expected
mappings with distinct case-folded algorithm names and non-empty digests (as
any Python dict of real digests has) — is `true` iff at least one expected
entry equals, case-insensitively, the computed digest of the same
algorithm. -/
theorem is_same_file_spec (H : HashFns) (fs : FS) (p : FPath)
    (expected : List (String × String)) :
    (fs.fileExists p = false →
      is_same_file H fs p expected = .error (.fileNotFound "File not found"))
    ∧ (∀ c, fs.files p = some c →
        ∃ m, is_same_file H fs p expected = .ok (m, computeHashes H c)
          ∧ (expected = [] → m = false)
          ∧ ((expected.map (fun e => pyLower e.1)).Nodup →
            (∀ e ∈ expected, e.2 ≠ "") →
            (m = true ↔ ∃ e ∈ expected, ∃ d,
              alGet (computeHashes H c) (pyLower e.1) = some d
              ∧ pyLower d = pyLower e.2))) := by
  constructor
  · intro hne
    simp [is_same_file, hne]
  · intro c hc
    have hex : fs.fileExists p = true := by simp [FS.fileExists, hc]
    by_cases hemp : expected.isEmpty
    · refine ⟨false, ?_, fun _ => rfl, ?_⟩
      · simp [is_same_file, hex, hemp, FS.lookupFile, hc]
      · intro hnd hne'
        rw [List.isEmpty_iff] at hemp
        subst hemp
        simp
    · refine ⟨(normExpected expected).any (fun e =>
        match alGet (computeHashes H c) e.1 with
        | some actual => actual ≠ "" && pyLower actual == pyLower e.2
        | none => false), ?_, ?_, ?_⟩
      · simp [is_same_file, hex, hemp, FS.lookupFile, hc]
      · intro h
        rw [h] at hemp
        simp at hemp
      · intro hnd hne'
        exact is_same_file_matches_iff H c expected hnd hne'

/-- C6 witness: the statement applied to a concrete file whose sha1 digest
matches the (upper-case) expected entry. -/
theorem is_same_file_spec_witness :
    is_same_file cH cFsHash ["inst", "mods", "m.jar"] [("SHA1", "AA")] =
      .ok (true, computeHashes cH [7]) := by
  obtain ⟨m, hm, -, hiff⟩ :=
    (is_same_file_spec cH cFsHash ["inst", "mods", "m.jar"] [("SHA1", "AA")]).2 [7]
      (by with_unfolding_all decide)
  have hmt : m = true := by
    refine (hiff (by with_unfolding_all decide)
      (by intro e he; fin_cases he; with_unfolding_all decide)).mpr ?_
    exact ⟨("SHA1", "AA"), by simp, "aa", by with_unfolding_all decide,
      by with_unfolding_all decide⟩
  rw [hmt] at hm
  exact hm

/-!  Claim C9. -/

/-- C9: when an item's target file already exists and `is_same_file` reports a
match against its (non-empty) expected hashes, `_download_task` returns a
successful result with `attempts = 0` and `downloaded_bytes = 0`, leaves the
filesystem unchanged and performs no network request or sleep. -/
theorem download_task_skip (H : HashFns) (dateParse : String → Option ℚ) (now : ℚ)
    (env : AWEnv) (client : Client) (server : ℕ → Except String Resp)
    (backoff : ℕ → ℚ) (maxRetries : ℕ) (fs : FS) (it : InstallItem) (tp : FPath)
    (htp : it.target_path = some tp)
    (hsame : ∃ computed, is_same_file H fs tp it.expected_hashes = .ok (true, computed)) :
    download_task H dateParse now env client server backoff maxRetries fs it =
      (⟨it, true, some tp, 0, 0, none, some true⟩, fs, []) := by
  obtain ⟨computed, hc⟩ := hsame
  have hex : fs.fileExists tp = true := by
    by_contra hnex
    have : is_same_file H fs tp it.expected_hashes = .error (.fileNotFound "File not found") := by
      simp only [Bool.not_eq_true] at hnex
      simp [is_same_file, hnex]
    rw [this] at hc
    cases hc
  have hnemp : it.expected_hashes.isEmpty = false := by
    by_contra hemp
    simp only [Bool.not_eq_false] at hemp
    have : is_same_file H fs tp it.expected_hashes =
        .ok (false, computeHashes H ((fs.lookupFile tp).getD [])) := by
      simp [is_same_file, hex, hemp]
    rw [this] at hc
    cases hc
  have hskip : dt_skip_check H fs it = some computed := by
    unfold dt_skip_check
    rw [htp]
    simp only [hex, hnemp, Bool.not_false, Bool.and_self, if_true, hc]
  unfold download_task
  rw [htp, hskip]
  cases halg : alGet computed "size" <;> simp [halg]

/-- C9 witness: the skip path at a concrete already-correct item. -/
theorem download_task_skip_witness :
    download_task cH (fun _ => none) 0 cEnv cClient (fun _ => .ok cResp200) cBackoff 3
      cFsHash cItemHit =
      (⟨cItemHit, true, some ["inst", "mods", "m.jar"], 0, 0, none, some true⟩, cFsHash, []) :=
  download_task_skip cH (fun _ => none) 0 cEnv cClient (fun _ => .ok cResp200) cBackoff 3
    cFsHash cItemHit ["inst", "mods", "m.jar"] (by with_unfolding_all decide)
    ⟨computeHashes cH [7], by with_unfolding_all decide⟩

/-!  Claim C10. -/

lemma build_plan_go (client : Client) (root : FPath) :
    ∀ (l : List ManifestEntry) (acc : List InstallItem × List Effect),
      (l.foldl (fun acc entry =>
        match pidOf entry, fidOf entry with
        | some pid, some fid =>
            let r := plan_item client root pid fid (requiredOf entry)
            (acc.1 ++ [r.1], acc.2 ++ r.2)
        | _, _ => acc) acc).1.length =
      acc.1.length + (l.filter (fun e => (pidOf e).isSome && (fidOf e).isSome)).length := by
  intro l
  induction l with
  | nil => simp
  | cons e l ih =>
    intro acc
    rw [List.foldl_cons]
    cases hp : pidOf e with
    | none => simp [hp, ih]
    | some pid =>
      cases hf : fidOf e with
      | none => simp [hp, hf, ih]
      | some fid =>
        simp only [hp, hf]
        rw [ih]
        simp [List.filter_cons, hp, hf]
        omega

/-- C10: `build_plan_from_manifest` silently skips every manifest entry whose
project or file identifier resolves to `None` — the plan has exactly one item
per well-formed entry, no placeholder and no error — and consequently (shown
at a concrete manifest with one malformed entry) the plan and
`report.total_files` can be strictly smaller than the `files` list. -/
theorem build_plan_skips_malformed (client : Client) (root : FPath) (manifest : Manifest) :
    (build_plan_from_manifest client root manifest).1.length =
      (manifest.files.filter (fun e => (pidOf e).isSome && (fidOf e).isSome)).length
    ∧ (build_plan_from_manifest cClient ["inst"] cManifest).1.length = 1
    ∧ cManifest.files.length = 2
    ∧ (install_from_manifest cH (fun _ => none) 0 cEnv cClient cServer500 (fun _ => 1) 3 true
        cManifest ["inst"] true true true true "TS" cFsRoot).report.total_files = 1 := by
  refine ⟨?_, by with_unfolding_all decide, by decide, by with_unfolding_all decide⟩
  have h := build_plan_go client root manifest.files ([], [])
  simpa [build_plan_from_manifest] using h

/-!  Claim C3. -/

lemma countP_disjoint_le_length {α : Type} (p q : α → Bool)
    (h : ∀ x, p x = true → q x = false) :
    ∀ l : List α, l.countP p + l.countP q ≤ l.length := by
  intro l
  induction l with
  | nil => simp
  | cons a l ih =>
    rw [List.countP_cons, List.countP_cons, List.length_cons]
    by_cases hp : p a = true
    · have hq := h a hp
      rw [if_pos hp, if_neg (by rw [hq]; exact Bool.false_ne_true)]
      omega
    · rw [if_neg hp]
      by_cases hq : q a = true
      · rw [if_pos hq]
        omega
      · rw [if_neg hq]
        omega

lemma ifm_downloads_go_length (H : HashFns) (dateParse : String → Option ℚ) (now : ℚ)
    (env : AWEnv) (client : Client) (server : Int → Int → ℕ → Except String Resp)
    (backoff : ℕ → ℚ) (maxRetries : ℕ) :
    ∀ (items : List InstallItem) (acc : List InstallResult × FS × List Effect),
      (items.foldl (fun acc it =>
        let r := download_task H dateParse now env client (server it.project_id it.file_id)
          backoff maxRetries acc.2.1 it
        (acc.1 ++ [r.1], r.2.1, acc.2.2 ++ r.2.2)) acc).1.length =
      acc.1.length + items.length := by
  intro items
  induction items with
  | nil => simp
  | cons it l ih =>
    intro acc
    rw [List.foldl_cons, ih]
    simp
    omega

lemma ifm_downloads_length (H : HashFns) (dateParse : String → Option ℚ) (now : ℚ)
    (env : AWEnv) (client : Client) (server : Int → Int → ℕ → Except String Resp)
    (backoff : ℕ → ℚ) (maxRetries : ℕ) (items : List InstallItem) (fs : FS) :
    (ifm_downloads H dateParse now env client server backoff maxRetries items fs).1.length =
      items.length := by
  have h := ifm_downloads_go_length H dateParse now env client server backoff maxRetries
    items ([], fs, [])
  simpa [ifm_downloads] using h

lemma ifm_main_report_invariants (H : HashFns) (dateParse : String → Option ℚ) (now : ℚ)
    (env : AWEnv) (client : Client) (server : Int → Int → ℕ → Except String Resp)
    (backoff : ℕ → ℚ) (maxRetries : ℕ) (manifest : Manifest) (root : FPath)
    (overwrite preserve_backups : Bool) (backupPath : Option FPath) (backups : List FPath)
    (items : List InstallItem) (planEff : List Effect) (fs : FS) :
    (ifm_main H dateParse now env client server backoff maxRetries manifest root overwrite
        preserve_backups backupPath backups items planEff fs).report.successful
      + (ifm_main H dateParse now env client server backoff maxRetries manifest root overwrite
        preserve_backups backupPath backups items planEff fs).report.failed
      ≤ (ifm_main H dateParse now env client server backoff maxRetries manifest root overwrite
        preserve_backups backupPath backups items planEff fs).report.total_files
    ∧ ((ifm_main H dateParse now env client server backoff maxRetries manifest root overwrite
        preserve_backups backupPath backups items planEff fs).report.success = true
      ↔ (ifm_main H dateParse now env client server backoff maxRetries manifest root overwrite
        preserve_backups backupPath backups items planEff fs).report.failed = 0) := by
  constructor
  · have hlen := ifm_downloads_length H dateParse now env client server backoff maxRetries items
      (items.foldl (fun fs it =>
        match it.target_folder with
        | some d => fs.addDir d
        | none => fs) fs)
    have hcount := countP_disjoint_le_length (fun r : InstallResult => r.success)
      (fun r => !r.success && r.item.required) (fun r hr => by simp [hr])
      (ifm_downloads H dateParse now env client server backoff maxRetries items
        (items.foldl (fun fs it =>
          match it.target_folder with
          | some d => fs.addDir d
          | none => fs) fs)).1
    unfold ifm_main
    dsimp only
    omega
  · unfold ifm_main
    dsimp only
    exact ⟨fun h => by simpa using h, fun h => by simp [h]⟩

/-- C3 counterexample: a dry run returns `success = false` with `failed = 0`,
so `success == (failed == 0)` fails for dry-run reports. -/
theorem install_report_iff_fails_on_dry_run :
    ¬((install_from_manifest cH (fun _ => none) 0 cEnv cClient cServer500 (fun _ => 1) 3 true
        cManifest ["inst"] true true true true "TS" cFsRoot).report.success = true ↔
      (install_from_manifest cH (fun _ => none) 0 cEnv cClient cServer500 (fun _ => 1) 3 true
        cManifest ["inst"] true true true true "TS" cFsRoot).report.failed = 0) := by
  with_unfolding_all decide

/-- C3 (amended): every report satisfies
`successful + failed ≤ total_files`; for non-dry-run reports
`success ↔ failed = 0`; a dry-run report instead has `success = false` with
`failed = 0` (so the iff fails exactly there). -/
theorem install_report_invariants (H : HashFns) (dateParse : String → Option ℚ) (now : ℚ)
    (env : AWEnv) (client : Client) (server : Int → Int → ℕ → Except String Resp)
    (backoff : ℕ → ℚ) (maxRetries : ℕ) (backupOnFailure : Bool)
    (manifest : Manifest) (root : FPath)
    (create_instance_dirs overwrite dry_run preserve_backups : Bool)
    (bkTs : String) (fs0 : FS) :
    (install_from_manifest H dateParse now env client server backoff maxRetries
        backupOnFailure manifest root create_instance_dirs overwrite dry_run
        preserve_backups bkTs fs0).report.successful
      + (install_from_manifest H dateParse now env client server backoff maxRetries
        backupOnFailure manifest root create_instance_dirs overwrite dry_run
        preserve_backups bkTs fs0).report.failed
      ≤ (install_from_manifest H dateParse now env client server backoff maxRetries
        backupOnFailure manifest root create_instance_dirs overwrite dry_run
        preserve_backups bkTs fs0).report.total_files
    ∧ (dry_run = false →
        ((install_from_manifest H dateParse now env client server backoff maxRetries
          backupOnFailure manifest root create_instance_dirs overwrite dry_run
          preserve_backups bkTs fs0).report.success = true ↔
        (install_from_manifest H dateParse now env client server backoff maxRetries
          backupOnFailure manifest root create_instance_dirs overwrite dry_run
          preserve_backups bkTs fs0).report.failed = 0))
    ∧ (dry_run = true →
        (install_from_manifest H dateParse now env client server backoff maxRetries
          backupOnFailure manifest root create_instance_dirs overwrite dry_run
          preserve_backups bkTs fs0).report.success = false
        ∧ (install_from_manifest H dateParse now env client server backoff maxRetries
          backupOnFailure manifest root create_instance_dirs overwrite dry_run
          preserve_backups bkTs fs0).report.failed = 0) := by
  cases dry_run with
  | true =>
    refine ⟨?_, fun h => Bool.noConfusion h, fun _ => ?_⟩
    · unfold install_from_manifest ifm_dry_branch
      dsimp only
      simp
    · unfold install_from_manifest ifm_dry_branch
      dsimp only
      exact ⟨rfl, rfl⟩
  | false =>
    refine ⟨?_, fun _ => ?_, fun h => Bool.noConfusion h⟩
    · unfold install_from_manifest
      dsimp only
      exact (ifm_main_report_invariants _ _ _ _ _ _ _ _ _ _ _ _ _ _ _ _ _).1
    · unfold install_from_manifest
      dsimp only
      exact (ifm_main_report_invariants _ _ _ _ _ _ _ _ _ _ _ _ _ _ _ _ _).2

/-- C3 witness: the amended statement's implications discharged at a concrete
dry-run input. -/
theorem install_report_invariants_witness :
    (install_from_manifest cH (fun _ => none) 0 cEnv cClient cServer500 (fun _ => 1) 3 true
      cManifest ["inst"] true true true true "TS" cFsRoot).report.success = false
    ∧ (install_from_manifest cH (fun _ => none) 0 cEnv cClient cServer500 (fun _ => 1) 3 true
      cManifest ["inst"] true true true true "TS" cFsRoot).report.failed = 0 :=
  (install_report_invariants cH (fun _ => none) 0 cEnv cClient cServer500 (fun _ => 1) 3 true
    cManifest ["inst"] true true true true "TS" cFsRoot).2.2 rfl

/-!  Claim C4. -/

lemma plan_meta_call_effects (client : Client) (pid fid : Int) :
    (plan_meta_call client pid fid).2 = []
    ∨ (plan_meta_call client pid fid).2 = [Effect.netMeta pid fid] := by
  unfold plan_meta_call
  rcases client.get_mod_file with _ | f1
  · rcases client.get_file with _ | f2
    · rcases client.get_modfile with _ | f3
      · left
        rfl
      · right
        rfl
    · right
      rfl
  · right
    rfl

lemma plan_url_call_effects (client : Client) (pid fid : Int) :
    (plan_url_call client pid fid).2 = []
    ∨ (plan_url_call client pid fid).2 = [Effect.netUrl pid fid] := by
  unfold plan_url_call
  rcases client.get_file_download_url with _ | f1
  · rcases client.get_file_download_link with _ | f2
    · left
      rfl
    · right
      rfl
  · right
    rfl

lemma plan_item_effects_clientCalls (client : Client) (root : FPath) (pid fid : Int)
    (req : Bool) : ∀ e ∈ (plan_item client root pid fid req).2, e.isClientCall = true := by
  intro e he
  have h2 : (plan_item client root pid fid req).2 =
      (plan_meta_call client pid fid).2 ++ (plan_url_call client pid fid).2 := rfl
  rw [h2, List.mem_append] at he
  rcases he with hm | hm
  · rcases plan_meta_call_effects client pid fid with h | h <;> rw [h] at hm
    · simp at hm
    · simp at hm
      subst hm
      rfl
  · rcases plan_url_call_effects client pid fid with h | h <;> rw [h] at hm
    · simp at hm
    · simp at hm
      subst hm
      rfl

lemma build_plan_effects_go (client : Client) (root : FPath) :
    ∀ (l : List ManifestEntry) (acc : List InstallItem × List Effect),
      (∀ e ∈ acc.2, e.isClientCall = true) →
      ∀ e ∈ (l.foldl (fun acc entry =>
        match pidOf entry, fidOf entry with
        | some pid, some fid =>
            let r := plan_item client root pid fid (requiredOf entry)
            (acc.1 ++ [r.1], acc.2 ++ r.2)
        | _, _ => acc) acc).2, e.isClientCall = true := by
  intro l
  induction l with
  | nil => exact fun acc h => h
  | cons entry l ih =>
    intro acc hacc
    rw [List.foldl_cons]
    cases hp : pidOf entry with
    | none => exact ih acc hacc
    | some pid =>
      cases hf : fidOf entry with
      | none =>
        simp only [hp]
        exact ih acc hacc
      | some fid =>
        simp only [hp, hf]
        refine ih _ ?_
        intro e he
        rw [List.mem_append] at he
        rcases he with h | h
        · exact hacc e h
        · exact plan_item_effects_clientCalls client root pid fid (requiredOf entry) e h

lemma build_plan_effects_clientCalls (client : Client) (root : FPath) (manifest : Manifest) :
    ∀ e ∈ (build_plan_from_manifest client root manifest).2, e.isClientCall = true := by
  have h := build_plan_effects_go client root manifest.files ([], []) (by simp)
  simpa [build_plan_from_manifest] using h

lemma foldl_addDir_files (ds : List FPath) (fs : FS) (q : FPath) :
    (ds.foldl FS.addDir fs).files q = fs.files q := by
  induction ds generalizing fs with
  | nil => rfl
  | cons d ds ih => exact ih (fs.addDir d)

lemma ifm_stage_dirs_files (c : Bool) (root : FPath) (fs : FS) (q : FPath) :
    (ifm_stage_dirs c root fs).files q = fs.files q := by
  cases c with
  | false => rfl
  | true => exact foldl_addDir_files _ fs q

lemma backup_root_prefix_dest (root : FPath) (ts : String) :
    backup_root_path root <+: backup_dest_path root ts :=
  ⟨[root.getLastD "" ++ "-" ++ ts], rfl⟩

lemma ifm_stage_backup_files (enabled : Bool) (root : FPath) (ts : String) (fs : FS)
    (q : FPath) (h : ¬(backup_root_path root <+: q)) :
    (ifm_stage_backup enabled root ts fs).1.files q = fs.files q := by
  cases enabled with
  | false => rfl
  | true =>
    unfold ifm_stage_backup
    dsimp only
    by_cases hd : (fs.addDir (backup_root_path root)).dirExists root = true
    · rw [if_pos hd]
      have hnp : ¬(backup_dest_path root ts <+: q) := fun hp =>
        h ((backup_root_prefix_dest root ts).trans hp)
      simp [FS.copyTree, FS.addDir, hnp]
    · rw [if_neg hd]
      rfl

/-- C4 counterexample: a dry run with default options still creates the
standard instance directories, copies a backup, and makes a client call while
building the plan — contradicting "no network call and no modification to
the filesystem". (The placeholder results and `success=false` do hold.) -/
theorem install_dry_run_counterexample :
    (install_from_manifest cH (fun _ => none) 0 cEnv cClient cServer500 (fun _ => 1) 3 true
      cManifest ["inst"] true true true true "TS" cFsRoot).report.success = false
    ∧ ((install_from_manifest cH (fun _ => none) 0 cEnv cClient cServer500 (fun _ => 1) 3 true
      cManifest ["inst"] true true true true "TS" cFsRoot).report.results.map
        (fun r => r.error)) = [some "dry-run"]
    ∧ cFsRoot.dirs ["inst", "mods"] = false
    ∧ (install_from_manifest cH (fun _ => none) 0 cEnv cClient cServer500 (fun _ => 1) 3 true
      cManifest ["inst"] true true true true "TS" cFsRoot).fs.dirs ["inst", "mods"] = true
    ∧ (install_from_manifest cH (fun _ => none) 0 cEnv cClient cServer500 (fun _ => 1) 3 true
      cManifest ["inst"] true true true true "TS" cFsRoot).fs.dirs
        (backup_dest_path ["inst"] "TS") = true
    ∧ Effect.netUrl 1 2 ∈ (install_from_manifest cH (fun _ => none) 0 cEnv cClient cServer500
      (fun _ => 1) 3 true cManifest ["inst"] true true true true "TS" cFsRoot).effects := by
  refine ⟨?_, ?_, ?_, ?_, ?_, ?_⟩ <;> with_unfolding_all decide

/-- C4 (amended): a dry run produces one placeholder result (`success=false`,
`error="dry-run"`, zero attempts and bytes) per planned item and terminates
with `success=false`; it performs no download request and no sleep (its only
effects are the plan-building client calls) and writes no file outside the
backup area — but the directory creation, the backup copy and the
plan-building client calls of the stages before the short-circuit do still
happen. -/
theorem install_dry_run_behavior (H : HashFns) (dateParse : String → Option ℚ) (now : ℚ)
    (env : AWEnv) (client : Client) (server : Int → Int → ℕ → Except String Resp)
    (backoff : ℕ → ℚ) (maxRetries : ℕ) (backupOnFailure : Bool)
    (manifest : Manifest) (root : FPath)
    (create_instance_dirs overwrite dry_run preserve_backups : Bool)
    (bkTs : String) (fs0 : FS) (hdr : dry_run = true) :
    (install_from_manifest H dateParse now env client server backoff maxRetries
        backupOnFailure manifest root create_instance_dirs overwrite dry_run
        preserve_backups bkTs fs0).report.results =
      (build_plan_from_manifest client root manifest).1.map (fun it =>
        (⟨it, false, it.target_path, 0, 0, some "dry-run", none⟩ : InstallResult))
    ∧ (install_from_manifest H dateParse now env client server backoff maxRetries
        backupOnFailure manifest root create_instance_dirs overwrite dry_run
        preserve_backups bkTs fs0).report.success = false
    ∧ (∀ e ∈ (install_from_manifest H dateParse now env client server backoff maxRetries
        backupOnFailure manifest root create_instance_dirs overwrite dry_run
        preserve_backups bkTs fs0).effects, e.isClientCall = true)
    ∧ (∀ q, ¬(backup_root_path root <+: q) →
        (install_from_manifest H dateParse now env client server backoff maxRetries
          backupOnFailure manifest root create_instance_dirs overwrite dry_run
          preserve_backups bkTs fs0).fs.files q = fs0.files q) := by
  subst hdr
  refine ⟨rfl, rfl, ?_, ?_⟩
  · intro e he
    exact build_plan_effects_clientCalls client root manifest e he
  · intro q hq
    show (ifm_stage_backup backupOnFailure root bkTs
      (ifm_stage_dirs create_instance_dirs root fs0)).1.files q = fs0.files q
    rw [ifm_stage_backup_files backupOnFailure root bkTs _ q hq]
    exact ifm_stage_dirs_files create_instance_dirs root fs0 q

/-- C4 witness: the amended statement discharged at a concrete dry-run input,
projected to binder-free facts. -/
theorem install_dry_run_behavior_witness :
    (install_from_manifest cH (fun _ => none) 0 cEnv cClient cServer500 (fun _ => 1) 3 true
      cManifest ["inst"] true true true true "TS" cFsRoot).report.success = false
    ∧ (install_from_manifest cH (fun _ => none) 0 cEnv cClient cServer500 (fun _ => 1) 3 true
      cManifest ["inst"] true true true true "TS" cFsRoot).fs.files ["other"] =
      cFsRoot.files ["other"] :=
  ⟨(install_dry_run_behavior cH (fun _ => none) 0 cEnv cClient cServer500 (fun _ => 1) 3 true
      cManifest ["inst"] true true true true "TS" cFsRoot rfl).2.1,
    (install_dry_run_behavior cH (fun _ => none) 0 cEnv cClient cServer500 (fun _ => 1) 3 true
      cManifest ["inst"] true true true true "TS" cFsRoot rfl).2.2.2 ["other"]
      (by decide)⟩

/-- C7 witness: the amended statement applied at the counterexample input. -/
theorem atomic_write_failure_cleanup_witness :
    (atomic_write cEnvMoveFail cFsOne ["d", "f"] (some [9]) none).fs.files
        cEnvMoveFail.tmpName = none
    ∧ ((atomic_write cEnvMoveFail cFsOne ["d", "f"] (some [9]) none).fs.files ["d", "f"] =
        cFsOne.files ["d", "f"]
      ∨ (cEnvMoveFail.replaceOk = false ∧ cEnvMoveFail.moveOk = false
        ∧ (atomic_write cEnvMoveFail cFsOne ["d", "f"] (some [9]) none).fs.files ["d", "f"] =
          none)) :=
  atomic_write_failure_cleanup cEnvMoveFail cFsOne ["d", "f"] (some [9]) none
    (by with_unfolding_all decide)
    (.downloadError "Failed to move temp file to destination")
    (by with_unfolding_all decide)

/-!  Claim C8. -/

lemma dt_loop_frame (H : HashFns) (dateParse : String → Option ℚ) (now : ℚ) (env : AWEnv)
    (client : Client) (server : ℕ → Except String Resp) (backoff : ℕ → ℚ)
    (maxRetries : ℕ) (root : FPath) :
    ∀ (fuel attempts : ℕ) (st : DTSt), ItemUnderRoot root st.it →
      ∀ q, ¬(root <+: q) →
        (dt_loop H dateParse now env client server backoff maxRetries fuel attempts st).st.fs.files q
          = st.fs.files q
        ∧ (dt_loop H dateParse now env client server backoff maxRetries fuel attempts st).st.fs.dirs q
          = st.fs.dirs q := by
  intro fuel
  induction fuel with
  | zero => intro attempts st hinv q hq; exact ⟨rfl, rfl⟩
  | succ k ih =>
    intro attempts st hinv q hq
    have hfr := dt_try_frame H dateParse now env client server backoff root (attempts + 1) st hinv
    rw [dt_loop]
    dsimp only
    cases htry : dt_try H dateParse now env client server backoff (attempts + 1) st with
    | ok v =>
      rw [htry] at hfr
      obtain ⟨stv, w⟩ := v
      exact ⟨(hfr.2 q hq).1, (hfr.2 q hq).2⟩
    | error v =>
      rw [htry] at hfr
      obtain ⟨msg, stv⟩ := v
      dsimp only [dtTrySt] at hfr
      show (if attempts + 1 < maxRetries then
          dt_loop H dateParse now env client server backoff maxRetries k (attempts + 1)
            { stv with
                lastErr := some msg,
                eff := stv.eff ++ [Effect.sleep (backoff (attempts + 1))] }
        else (⟨{ stv with lastErr := some msg }, attempts + 1, false, none⟩ : DTOut)).st.fs.files q
          = st.fs.files q
        ∧ (if attempts + 1 < maxRetries then
          dt_loop H dateParse now env client server backoff maxRetries k (attempts + 1)
            { stv with
                lastErr := some msg,
                eff := stv.eff ++ [Effect.sleep (backoff (attempts + 1))] }
        else (⟨{ stv with lastErr := some msg }, attempts + 1, false, none⟩ : DTOut)).st.fs.dirs q
          = st.fs.dirs q
      by_cases hlt : attempts + 1 < maxRetries
      · rw [if_pos hlt]
        have h1 := ih (attempts + 1)
          { stv with
              lastErr := some msg,
              eff := stv.eff ++ [Effect.sleep (backoff (attempts + 1))] }
          hfr.1 q hq
        exact ⟨h1.1.trans (hfr.2 q hq).1, h1.2.trans (hfr.2 q hq).2⟩
      · rw [if_neg hlt]
        exact ⟨(hfr.2 q hq).1, (hfr.2 q hq).2⟩

lemma download_task_frame (H : HashFns) (dateParse : String → Option ℚ) (now : ℚ) (env : AWEnv)
    (client : Client) (server : ℕ → Except String Resp) (backoff : ℕ → ℚ)
    (maxRetries : ℕ) (fs : FS) (it : InstallItem) (root : FPath)
    (hinv : ItemUnderRoot root it) (q : FPath) (hq : ¬(root <+: q)) :
    (download_task H dateParse now env client server backoff maxRetries fs it).2.1.files q
      = fs.files q
    ∧ (download_task H dateParse now env client server backoff maxRetries fs it).2.1.dirs q
      = fs.dirs q := by
  unfold download_task
  cases hsk : dt_skip_check H fs it with
  | some computed => exact ⟨rfl, rfl⟩
  | none =>
    have h := dt_loop_frame H dateParse now env client server backoff maxRetries root
      maxRetries 0 ⟨it, none, 0, none, fs, []⟩ hinv q hq
    exact ⟨h.1, h.2⟩

lemma ifm_downloads_fold_frame (H : HashFns) (dateParse : String → Option ℚ) (now : ℚ)
    (env : AWEnv) (client : Client) (server : Int → Int → ℕ → Except String Resp)
    (backoff : ℕ → ℚ) (maxRetries : ℕ) (root : FPath) :
    ∀ (items : List InstallItem) (acc : List InstallResult × FS × List Effect),
      (∀ it ∈ items, ItemUnderRoot root it) → ∀ q, ¬(root <+: q) →
      (items.foldl (fun acc it =>
          let r := download_task H dateParse now env client (server it.project_id it.file_id)
            backoff maxRetries acc.2.1 it
          (acc.1 ++ [r.1], r.2.1, acc.2.2 ++ r.2.2)) acc).2.1.files q = acc.2.1.files q
      ∧ (items.foldl (fun acc it =>
          let r := download_task H dateParse now env client (server it.project_id it.file_id)
            backoff maxRetries acc.2.1 it
          (acc.1 ++ [r.1], r.2.1, acc.2.2 ++ r.2.2)) acc).2.1.dirs q = acc.2.1.dirs q := by
  intro items
  induction items with
  | nil => intro acc hinv q hq; exact ⟨rfl, rfl⟩
  | cons it tl ih =>
    intro acc hinv q hq
    simp only [List.foldl_cons]
    have hit := hinv it (List.mem_cons_self it tl)
    have htl : ∀ x ∈ tl, ItemUnderRoot root x := fun x hx => hinv x (List.mem_cons_of_mem it hx)
    have hd := download_task_frame H dateParse now env client (server it.project_id it.file_id)
      backoff maxRetries acc.2.1 it root hit q hq
    exact ⟨(ih _ htl q hq).1.trans hd.1, (ih _ htl q hq).2.trans hd.2⟩

lemma ifm_downloads_frame (H : HashFns) (dateParse : String → Option ℚ) (now : ℚ)
    (env : AWEnv) (client : Client) (server : Int → Int → ℕ → Except String Resp)
    (backoff : ℕ → ℚ) (maxRetries : ℕ) (items : List InstallItem) (fs : FS) (root : FPath)
    (hinv : ∀ it ∈ items, ItemUnderRoot root it) (q : FPath) (hq : ¬(root <+: q)) :
    (ifm_downloads H dateParse now env client server backoff maxRetries items fs).2.1.files q
      = fs.files q
    ∧ (ifm_downloads H dateParse now env client server backoff maxRetries items fs).2.1.dirs q
      = fs.dirs q := by
  unfold ifm_downloads
  exact ifm_downloads_fold_frame H dateParse now env client server backoff maxRetries root
    items ([], fs, []) hinv q hq

lemma ifm_mkdirs_frame (root : FPath) :
    ∀ (items : List InstallItem) (fs : FS),
      (∀ it ∈ items, ItemUnderRoot root it) → ∀ q, ¬(root <+: q) →
      (items.foldl (fun fs it =>
          match it.target_folder with
          | some d => fs.addDir d
          | none => fs) fs).files q = fs.files q
      ∧ (items.foldl (fun fs it =>
          match it.target_folder with
          | some d => fs.addDir d
          | none => fs) fs).dirs q = fs.dirs q := by
  intro items
  induction items with
  | nil => intro fs hinv q hq; exact ⟨rfl, rfl⟩
  | cons it tl ih =>
    intro fs hinv q hq
    simp only [List.foldl_cons]
    have hit := hinv it (List.mem_cons_self it tl)
    have htl : ∀ x ∈ tl, ItemUnderRoot root x := fun x hx => hinv x (List.mem_cons_of_mem it hx)
    have hstep : ((match it.target_folder with
        | some d => fs.addDir d
        | none => fs) : FS).files q = fs.files q
        ∧ ((match it.target_folder with
        | some d => fs.addDir d
        | none => fs) : FS).dirs q = fs.dirs q := by
      rw [hit.1]
      refine ⟨rfl, ?_⟩
      have hne : q ≠ root ++ ["mods"] := fun h => hq (h ▸ ⟨["mods"], rfl⟩)
      show (fs.addDir (root ++ ["mods"])).dirs q = fs.dirs q
      simp [FS.addDir, hne]
    exact ⟨(ih _ htl q hq).1.trans hstep.1, (ih _ htl q hq).2.trans hstep.2⟩

lemma mods_append_some (root : FPath) (x : String) :
    some (mods_dir root ++ [x]) = some (root ++ ["mods", x]) := by
  simp [mods_dir]

lemma plan_item_inv (client : Client) (root : FPath) (pid fid : Int) (required : Bool) :
    ItemUnderRoot root (plan_item client root pid fid required).1 := by
  refine ⟨rfl, .inr ?_⟩
  show ∃ s, (plan_item client root pid fid required).1.target_path = some (root ++ ["mods", s])
  unfold plan_item
  dsimp only
  split_ifs
  all_goals exact ⟨_, mods_append_some root _⟩

lemma build_plan_items_inv (client : Client) (root : FPath) (manifest : Manifest) :
    ∀ it ∈ (build_plan_from_manifest client root manifest).1, ItemUnderRoot root it := by
  unfold build_plan_from_manifest
  suffices h : ∀ (l : List ManifestEntry) (acc : List InstallItem × List Effect),
      (∀ it ∈ acc.1, ItemUnderRoot root it) →
      ∀ it ∈ (l.foldl (fun acc entry =>
        match pidOf entry, fidOf entry with
        | some pid, some fid =>
            let r := plan_item client root pid fid (requiredOf entry)
            (acc.1 ++ [r.1], acc.2 ++ r.2)
        | _, _ => acc) acc).1, ItemUnderRoot root it by
    intro it hit
    exact h manifest.files ([], []) (fun x hx => absurd hx (List.not_mem_nil x)) it hit
  intro l
  induction l with
  | nil => intro acc hacc it hit; exact hacc it hit
  | cons e tl ih =>
    intro acc hacc it hit
    simp only [List.foldl_cons] at hit
    cases hp : pidOf e with
    | none =>
      rw [hp] at hit
      cases hf : fidOf e with
      | none => rw [hf] at hit; exact ih acc hacc it hit
      | some fid => rw [hf] at hit; exact ih acc hacc it hit
    | some pid =>
      rw [hp] at hit
      cases hf : fidOf e with
      | none => rw [hf] at hit; exact ih acc hacc it hit
      | some fid =>
        rw [hf] at hit
        refine ih _ ?_ it hit
        intro x hx
        rcases List.mem_append.mp hx with h1 | h2
        · exact hacc x h1
        · have hx2 := List.mem_singleton.mp h2
          rw [hx2]
          exact plan_item_inv client root pid fid (requiredOf e)

lemma ifm_stage_overrides_frame (ow : Bool) (root : FPath) (manifest : Manifest) (fs : FS)
    (q : FPath) (hq : ¬(root <+: q)) :
    (ifm_stage_overrides ow root manifest fs).files q = fs.files q
    ∧ (ifm_stage_overrides ow root manifest fs).dirs q = fs.dirs q := by
  unfold ifm_stage_overrides
  cases manifest.overrides with
  | none => exact ⟨rfl, rfl⟩
  | some ov =>
    dsimp only
    by_cases h1 : (decide ¬ov = [] && (fs.dirExists ov || fs.fileExists ov)) = true
    · rw [if_pos h1]
      by_cases h2 : (ow && fs.dirExists ov) = true
      · rw [if_pos h2]
        exact ⟨by simp [overrides_copy, hq], by simp [overrides_copy, hq]⟩
      · rw [if_neg h2]
        exact ⟨rfl, rfl⟩
    · rw [if_neg h1]
      exact ⟨rfl, rfl⟩

lemma safe_remove_frame (fs : FS) (p q : FPath) (hq : ¬(p <+: q)) :
    (safe_remove fs p).files q = fs.files q ∧ (safe_remove fs p).dirs q = fs.dirs q := by
  have hne : q ≠ p := fun h => hq (by rw [h])
  unfold safe_remove
  by_cases hd : fs.dirExists p = true
  · rw [if_pos hd]
    exact ⟨by simp [FS.removeTree, hq], by simp [FS.removeTree, hq]⟩
  · rw [if_neg hd]
    exact ⟨by simp [FS.removeFile, hne], rfl⟩

lemma backup_root_length (root : FPath) (h : root ≠ []) :
    (backup_root_path root).length = root.length := by
  have hp : 0 < root.length := List.length_pos.mpr h
  unfold backup_root_path
  simp [List.length_dropLast]
  omega

lemma not_root_prefix_backup_root (root : FPath) (h : root ≠ []) :
    ¬(root <+: backup_root_path root) := by
  intro hpre
  have hlen : root.length = (backup_root_path root).length := (backup_root_length root h).symm
  have heq : root = backup_root_path root := hpre.eq_of_length hlen
  cases hl : root.getLast? with
  | none => exact h (List.getLast?_eq_none_iff.mp hl)
  | some s =>
    have hgd : root.getLastD "" = s := by simp [List.getLastD_eq_getLast?, hl]
    have hlast : (backup_root_path root).getLast? = some (s ++ "-backups") := by
      unfold backup_root_path
      rw [hgd]
      simp
    rw [← heq, hl] at hlast
    have heqs : s = s ++ "-backups" := (Option.some.injEq _ _).mp hlast
    have hlen2 := congrArg (fun t => t.data.length) heqs
    simp [String.data_append] at hlen2

lemma not_root_prefix_backup_ext (root : FPath) (h : root ≠ []) (ts : String) (rel : FPath) :
    ¬(root <+: backup_dest_path root ts ++ rel) := by
  intro hpre
  have hbr : backup_root_path root <+: backup_dest_path root ts ++ rel := by
    unfold backup_dest_path
    exact ⟨[root.getLastD "" ++ "-" ++ ts] ++ rel, by simp⟩
  have hle : root.length ≤ (backup_root_path root).length := by
    rw [backup_root_length root h]
  exact not_root_prefix_backup_root root h
    (List.prefix_of_prefix_length_le hpre hbr hle)

lemma ifm_stage_backup_some (enabled : Bool) (root : FPath) (ts : String) (fs : FS)
    (bp : FPath) (h : (ifm_stage_backup enabled root ts fs).2 = some bp) :
    bp = backup_dest_path root ts
    ∧ (ifm_stage_backup enabled root ts fs).1 =
      (fs.addDir (backup_root_path root)).copyTree root (backup_dest_path root ts) := by
  unfold ifm_stage_backup at h ⊢
  cases enabled with
  | false => simp at h
  | true =>
    rw [if_pos rfl] at h ⊢
    dsimp only at h ⊢
    by_cases hd : (fs.addDir (backup_root_path root)).dirExists root = true
    · rw [if_pos hd] at h ⊢
      exact ⟨((Option.some.injEq _ _).mp h).symm, rfl⟩
    · rw [if_neg hd] at h
      simp at h

lemma backup_tree_content (root : FPath) (h : root ≠ []) (ts : String) (fs : FS) (rel : FPath) :
    ((fs.addDir (backup_root_path root)).copyTree root (backup_dest_path root ts)).files
        (backup_dest_path root ts ++ rel) = fs.files (root ++ rel)
    ∧ ((fs.addDir (backup_root_path root)).copyTree root (backup_dest_path root ts)).dirs
        (backup_dest_path root ts ++ rel) = fs.dirs (root ++ rel) := by
  have hpre : backup_dest_path root ts <+: backup_dest_path root ts ++ rel := ⟨rel, rfl⟩
  have hne : root ++ rel ≠ backup_root_path root := fun he =>
    not_root_prefix_backup_root root h (he ▸ ⟨rel, rfl⟩)
  constructor
  · show (if backup_dest_path root ts <+: backup_dest_path root ts ++ rel then
        (fs.addDir (backup_root_path root)).files
          (root ++ (backup_dest_path root ts ++ rel).drop (backup_dest_path root ts).length)
      else (fs.addDir (backup_root_path root)).files (backup_dest_path root ts ++ rel))
      = fs.files (root ++ rel)
    rw [if_pos hpre, List.drop_left]
    rfl
  · show (if backup_dest_path root ts <+: backup_dest_path root ts ++ rel then
        (fs.addDir (backup_root_path root)).dirs
          (root ++ (backup_dest_path root ts ++ rel).drop (backup_dest_path root ts).length)
      else (fs.addDir (backup_root_path root)).dirs (backup_dest_path root ts ++ rel))
      = fs.dirs (root ++ rel)
    rw [if_pos hpre, List.drop_left]
    show (fs.addDir (backup_root_path root)).dirs (root ++ rel) = fs.dirs (root ++ rel)
    simp [FS.addDir, hne]

lemma ifm_tail_rollback (root bp : FPath) (manifest : Manifest) (ow pb : Bool) (failed : ℕ)
    (fs2 : FS) (hfail : 0 < failed) (hq : ∀ rel : FPath, ¬(root <+: bp ++ rel)) (rel : FPath) :
    (ifm_stage_cleanup (some bp) (failed == 0) pb
        (ifm_stage_rollback failed (some bp) root
          (ifm_stage_overrides ow root manifest fs2))).files (root ++ rel) =
      fs2.files (bp ++ rel)
    ∧ (ifm_stage_cleanup (some bp) (failed == 0) pb
        (ifm_stage_rollback failed (some bp) root
          (ifm_stage_overrides ow root manifest fs2))).dirs (root ++ rel) =
      fs2.dirs (bp ++ rel) := by
  have hsucc : (failed == 0) = false := by
    cases hf : failed == 0
    · rfl
    · exact absurd (eq_of_beq hf) (by omega)
  have hovf := ifm_stage_overrides_frame ow root manifest fs2 (bp ++ rel) (hq rel)
  have hsr := safe_remove_frame (ifm_stage_overrides ow root manifest fs2) root
    (bp ++ rel) (hq rel)
  rw [hsucc]
  have hcl : ∀ Y : FS, ifm_stage_cleanup (some bp) false pb Y = Y := fun Y => rfl
  rw [hcl]
  have hrb : ifm_stage_rollback failed (some bp) root
      (ifm_stage_overrides ow root manifest fs2) =
      (safe_remove (ifm_stage_overrides ow root manifest fs2) root).moveTree bp root := by
    show (if failed > 0 then
        (safe_remove (ifm_stage_overrides ow root manifest fs2) root).moveTree bp root
      else ifm_stage_overrides ow root manifest fs2) =
      (safe_remove (ifm_stage_overrides ow root manifest fs2) root).moveTree bp root
    rw [if_pos hfail]
  rw [hrb]
  constructor
  · show (if root <+: root ++ rel then
        (safe_remove (ifm_stage_overrides ow root manifest fs2) root).files
          (bp ++ (root ++ rel).drop root.length)
      else if bp <+: root ++ rel then none
      else (safe_remove (ifm_stage_overrides ow root manifest fs2) root).files (root ++ rel))
      = fs2.files (bp ++ rel)
    rw [if_pos ⟨rel, rfl⟩, List.drop_left, hsr.1, hovf.1]
  · show (if root <+: root ++ rel then
        (safe_remove (ifm_stage_overrides ow root manifest fs2) root).dirs
          (bp ++ (root ++ rel).drop root.length)
      else if bp <+: root ++ rel then false
      else (safe_remove (ifm_stage_overrides ow root manifest fs2) root).dirs (root ++ rel))
      = fs2.dirs (bp ++ rel)
    rw [if_pos ⟨rel, rfl⟩, List.drop_left, hsr.2, hovf.2]

lemma ifm_main_rollback (H : HashFns) (dateParse : String → Option ℚ) (now : ℚ)
    (env : AWEnv) (client : Client) (server : Int → Int → ℕ → Except String Resp)
    (backoff : ℕ → ℚ) (maxRetries : ℕ) (manifest : Manifest) (root : FPath)
    (ow pb : Bool) (bp : FPath) (backups : List FPath) (items : List InstallItem)
    (planEff : List Effect) (fs : FS)
    (hinv : ∀ it ∈ items, ItemUnderRoot root it)
    (hq : ∀ rel : FPath, ¬(root <+: bp ++ rel))
    (hfail : 0 < (ifm_main H dateParse now env client server backoff maxRetries manifest root
      ow pb (some bp) backups items planEff fs).report.failed)
    (rel : FPath) :
    (ifm_main H dateParse now env client server backoff maxRetries manifest root
        ow pb (some bp) backups items planEff fs).fs.files (root ++ rel) = fs.files (bp ++ rel)
    ∧ (ifm_main H dateParse now env client server backoff maxRetries manifest root
        ow pb (some bp) backups items planEff fs).fs.dirs (root ++ rel) = fs.dirs (bp ++ rel) := by
  have hfail' : 0 < ((ifm_downloads H dateParse now env client server backoff maxRetries items
      (items.foldl (fun fs it =>
        match it.target_folder with
        | some d => fs.addDir d
        | none => fs) fs)).1.countP (fun r => !r.success && r.item.required)) := hfail
  have hte := ifm_tail_rollback root bp manifest ow pb
    ((ifm_downloads H dateParse now env client server backoff maxRetries items
        (items.foldl (fun fs it =>
          match it.target_folder with
          | some d => fs.addDir d
          | none => fs) fs)).1.countP (fun r => !r.success && r.item.required))
    ((ifm_downloads H dateParse now env client server backoff maxRetries items
        (items.foldl (fun fs it =>
          match it.target_folder with
          | some d => fs.addDir d
          | none => fs) fs)).2.1)
    hfail' hq rel
  have hdlf := ifm_downloads_frame H dateParse now env client server backoff maxRetries items
    (items.foldl (fun fs it =>
      match it.target_folder with
      | some d => fs.addDir d
      | none => fs) fs)
    root hinv (bp ++ rel) (hq rel)
  have hmk := ifm_mkdirs_frame root items fs hinv (bp ++ rel) (hq rel)
  exact ⟨hte.1.trans (hdlf.1.trans hmk.1), hte.2.trans (hdlf.2.trans hmk.2)⟩

/-- C8 counterexample: a concrete failing run (server always 500) in which the
backup was recorded and a required item failed, yet the install root after the
run is not byte-identical to its pre-run state: rollback restores the state
captured by the backup, which was taken after `ensure_dirs` had already
created the standard instance directories, so `root/mods` exists afterwards
although it did not exist before the run. -/
theorem install_rollback_pre_state_counterexample :
    (install_from_manifest cH (fun _ => none) 0 cEnv cClient cServer500 (fun _ => 1) 1 true
      cManifest ["inst"] true true false true "TS" cFsRoot).report.failed = 1
    ∧ (install_from_manifest cH (fun _ => none) 0 cEnv cClient cServer500 (fun _ => 1) 1 true
      cManifest ["inst"] true true false true "TS" cFsRoot).report.backups =
        [backup_dest_path ["inst"] "TS"]
    ∧ cFsRoot.dirs ["inst", "mods"] = false
    ∧ (install_from_manifest cH (fun _ => none) 0 cEnv cClient cServer500 (fun _ => 1) 1 true
      cManifest ["inst"] true true false true "TS" cFsRoot).fs.dirs ["inst", "mods"] = true := by
  refine ⟨?_, ?_, ?_, ?_⟩ <;> with_unfolding_all decide

/-- C8 (amended): for every `install_from_manifest` run in which a backup was
successfully created (the report records the timestamped backup path) and at
least one required item failed, the install root's subtree after the run is
byte-identical to its state right after the directory-creation stage — the
state the backup captured — not to its state immediately before the run
began: the standard directories `ensure_dirs` creates before the backup is
taken survive in the restored root. -/
theorem install_rollback_restores_ensured_tree (H : HashFns) (dateParse : String → Option ℚ)
    (now : ℚ) (env : AWEnv) (client : Client) (server : Int → Int → ℕ → Except String Resp)
    (backoff : ℕ → ℚ) (maxRetries : ℕ) (backupOnFailure : Bool)
    (manifest : Manifest) (root : FPath)
    (create_instance_dirs overwrite dry_run preserve_backups : Bool)
    (bkTs : String) (fs0 : FS)
    (hroot : root ≠ []) (hdr : dry_run = false)
    (hbk : (install_from_manifest H dateParse now env client server backoff maxRetries
        backupOnFailure manifest root create_instance_dirs overwrite dry_run
        preserve_backups bkTs fs0).report.backups = [backup_dest_path root bkTs])
    (hfail : 0 < (install_from_manifest H dateParse now env client server backoff maxRetries
        backupOnFailure manifest root create_instance_dirs overwrite dry_run
        preserve_backups bkTs fs0).report.failed) :
    ∀ rel : FPath,
      (install_from_manifest H dateParse now env client server backoff maxRetries
          backupOnFailure manifest root create_instance_dirs overwrite dry_run
          preserve_backups bkTs fs0).fs.files (root ++ rel) =
        (ifm_stage_dirs create_instance_dirs root fs0).files (root ++ rel)
      ∧ (install_from_manifest H dateParse now env client server backoff maxRetries
          backupOnFailure manifest root create_instance_dirs overwrite dry_run
          preserve_backups bkTs fs0).fs.dirs (root ++ rel) =
        (ifm_stage_dirs create_instance_dirs root fs0).dirs (root ++ rel) := by
  subst hdr
  have key : install_from_manifest H dateParse now env client server backoff maxRetries
      backupOnFailure manifest root create_instance_dirs overwrite false
      preserve_backups bkTs fs0 =
      ifm_main H dateParse now env client server backoff maxRetries manifest root
        overwrite preserve_backups
        (ifm_stage_backup backupOnFailure root bkTs
          (ifm_stage_dirs create_instance_dirs root fs0)).2
        (match (ifm_stage_backup backupOnFailure root bkTs
            (ifm_stage_dirs create_instance_dirs root fs0)).2 with
          | some bp => [bp]
          | none => [])
        (build_plan_from_manifest client root manifest).1
        (build_plan_from_manifest client root manifest).2
        (ifm_stage_backup backupOnFailure root bkTs
          (ifm_stage_dirs create_instance_dirs root fs0)).1 := rfl
  have hbk2 : (ifm_stage_backup backupOnFailure root bkTs
      (ifm_stage_dirs create_instance_dirs root fs0)).2 =
      some (backup_dest_path root bkTs) := by
    have hbk' : (match (ifm_stage_backup backupOnFailure root bkTs
        (ifm_stage_dirs create_instance_dirs root fs0)).2 with
      | some bp => [bp]
      | none => ([] : List FPath)) = [backup_dest_path root bkTs] := hbk
    cases hb : (ifm_stage_backup backupOnFailure root bkTs
        (ifm_stage_dirs create_instance_dirs root fs0)).2 with
    | none =>
      rw [hb] at hbk'
      simp at hbk'
    | some bp =>
      rw [hb] at hbk'
      simp at hbk'
      rw [hbk']
  have hS1 : (ifm_stage_backup backupOnFailure root bkTs
      (ifm_stage_dirs create_instance_dirs root fs0)).1 =
      ((ifm_stage_dirs create_instance_dirs root fs0).addDir (backup_root_path root)).copyTree
        root (backup_dest_path root bkTs) :=
    (ifm_stage_backup_some backupOnFailure root bkTs
      (ifm_stage_dirs create_instance_dirs root fs0) (backup_dest_path root bkTs) hbk2).2
  have hfail' : 0 < (ifm_main H dateParse now env client server backoff maxRetries manifest root
      overwrite preserve_backups (some (backup_dest_path root bkTs))
      (match some (backup_dest_path root bkTs) with
        | some bp => [bp]
        | none => ([] : List FPath))
      (build_plan_from_manifest client root manifest).1
      (build_plan_from_manifest client root manifest).2
      (((ifm_stage_dirs create_instance_dirs root fs0).addDir (backup_root_path root)).copyTree
        root (backup_dest_path root bkTs))).report.failed := by
    rw [← hS1, ← hbk2]
    exact hfail
  intro rel
  have hmr := ifm_main_rollback H dateParse now env client server backoff maxRetries manifest
    root overwrite preserve_backups (backup_dest_path root bkTs)
    (match some (backup_dest_path root bkTs) with
      | some bp => [bp]
      | none => ([] : List FPath))
    (build_plan_from_manifest client root manifest).1
    (build_plan_from_manifest client root manifest).2
    (((ifm_stage_dirs create_instance_dirs root fs0).addDir (backup_root_path root)).copyTree
      root (backup_dest_path root bkTs))
    (build_plan_items_inv client root manifest)
    (fun r => not_root_prefix_backup_ext root hroot bkTs r)
    hfail' rel
  rw [key, hbk2, hS1]
  exact ⟨hmr.1.trans
      (backup_tree_content root hroot bkTs (ifm_stage_dirs create_instance_dirs root fs0) rel).1,
    hmr.2.trans
      (backup_tree_content root hroot bkTs (ifm_stage_dirs create_instance_dirs root fs0) rel).2⟩

/-- C8 witness: the amended statement applied at the concrete failing run,
projected to the `mods` subdirectory of the install root. -/
theorem install_rollback_restores_ensured_tree_witness :
    (install_from_manifest cH (fun _ => none) 0 cEnv cClient cServer500 (fun _ => 1) 1 true
      cManifest ["inst"] true true false true "TS" cFsRoot).fs.files (["inst"] ++ ["mods"]) =
      (ifm_stage_dirs true ["inst"] cFsRoot).files (["inst"] ++ ["mods"])
    ∧ (install_from_manifest cH (fun _ => none) 0 cEnv cClient cServer500 (fun _ => 1) 1 true
      cManifest ["inst"] true true false true "TS" cFsRoot).fs.dirs (["inst"] ++ ["mods"]) =
      (ifm_stage_dirs true ["inst"] cFsRoot).dirs (["inst"] ++ ["mods"]) :=
  install_rollback_restores_ensured_tree cH (fun _ => none) 0 cEnv cClient cServer500
    (fun _ => 1) 1 true cManifest ["inst"] true true false true "TS" cFsRoot
    (by decide) rfl (by with_unfolding_all decide) (by with_unfolding_all decide) ["mods"]
